import Mathlib

/-!
Verification development for the uPortal-contrib form-builder engine
(`src/form-builder.js`): schema-driven validation, dotted-path data binding,
widget selection and the submission state machine.

Modelling conventions (shallow embedding of the JavaScript source):
* JavaScript/JSON values are modelled by `JValue`.  Objects are plain
  string-keyed association lists (no prototype chain).  Arrays carry their
  indexed elements *and* the extra non-index string-keyed own properties that
  JavaScript allows on array objects (`arr.b = v`), because `setNestedValue`
  creates such properties when a path traverses an array.  The magic
  `length` property of arrays and the character/`length` properties of
  string primitives are outside the modelled JSON data domain.
* Numbers are modelled as rationals (`Rat`); the claims under study only
  exercise integral values, where JavaScript doubles behave exactly.
* A JavaScript regular expression is embedded as its test function
  `String → Bool`; the engine's fixed email regex is implemented concretely.
-/

/-- A JavaScript/JSON runtime value. -/
inductive JValue where
  | vUndefined : JValue
  | vNull : JValue
  | vBool : Bool → JValue
  | vNum : Rat → JValue
  | vStr : String → JValue
  /-- an array: indexed elements plus non-index own string properties -/
  | vArr : List JValue → List (String × JValue) → JValue
  | vObj : List (String × JValue) → JValue

namespace JValue

/-- Association-list lookup for object fields (JS own-property read). -/
def lookupField : List (String × JValue) → String → Option JValue
  | [], _ => none
  | (k, v) :: rest, key => if k = key then some v else lookupField rest key

/-- Parse a string as a canonical JavaScript array index: per the language
specification, `s` is an array index exactly when rendering its numeric value
reproduces `s` (so `"0"`, `"1"`, ... but not `"01"` or `"+1"`). -/
def parseIndex (s : String) : Option Nat :=
  if s.data ≠ [] ∧ s.data.all Char.isDigit then
    let n := s.data.foldl (fun a c => a * 10 + (c.toNat - 48)) 0
    if toString n = s then some n else none
  else none

/-- One step of property access `value?.[part]`: `null`/`undefined` and other
primitives yield `undefined`; objects read own properties; arrays read indexed
elements by canonical index, otherwise their extra string properties. -/
def getProp (v : JValue) (key : String) : JValue :=
  match v with
  | vObj fields => (lookupField fields key).getD vUndefined
  | vArr elems props =>
      match parseIndex key with
      | some i => elems.getD i vUndefined
      | none => (lookupField props key).getD vUndefined
  | _ => vUndefined

end JValue

/-- Character-level split on `'.'`, mirroring JavaScript `path.split('.')`
(so `"" ↦ [""]`, `"a..b" ↦ ["a", "", "b"]`). -/
def splitDots : List Char → List (List Char)
  | [] => [[]]
  | c :: rest =>
      if c = '.' then [] :: splitDots rest
      else
        match splitDots rest with
        | [] => [[c]]
        | g :: gs => (c :: g) :: gs

/-- `path.split('.').filter((part) => part.length > 0)` from the source. -/
def splitPath (s : String) : List String :=
  ((splitDots s.data).map fun g => String.mk g).filter (fun t => t ≠ "")

/-- The path template `basePath ? basePath + '.' + name : name` used throughout
the source when descending into a property. -/
def joinPath (bp name : String) : String :=
  if bp = "" then name else bp ++ "." ++ name

/-- `getNestedValue(path)` for a string path: split on dots, drop empty
segments, then fold optional-chained property access over `formData`. -/
def getNestedValue (fd : JValue) (path : String) : JValue :=
  if path = "" then JValue.vUndefined
  else
    match splitPath path with
    | [] => JValue.vUndefined
    | parts => parts.foldl JValue.getProp fd

/-- `getNestedValue(path)` at its public surface, where the path argument can
be any JavaScript value: `if (!path || typeof path !== 'string') return
undefined` rejects every non-string and the empty string. -/
def getNestedValueAny (fd : JValue) (path : JValue) : JValue :=
  match path with
  | JValue.vStr s => if s = "" then JValue.vUndefined else getNestedValue fd s
  | _ => JValue.vUndefined

/-- `typeof path === 'string'` on the modelled values. -/
def isStringJ : JValue → Bool
  | JValue.vStr _ => true
  | _ => false

namespace JValue

/-- Store (insert or replace) a field in an object, as JS `obj[k] = v`. -/
def storeField : List (String × JValue) → String → JValue → List (String × JValue)
  | [], key, v => [(key, v)]
  | (k, w) :: rest, key, v =>
      if k = key then (key, v) :: rest else (k, w) :: storeField rest key v

/-- JS index assignment `arr[i] = v`: in-range update, or extension padding the
gap with `undefined` holes. -/
def updatePad (elems : List JValue) (i : Nat) (v : JValue) : List JValue :=
  if i < elems.length then elems.set i v
  else elems ++ List.replicate (i - elems.length) vUndefined ++ [v]

/-- Property assignment `current[part] = v` on a container (object or array).
On arrays a canonical index goes to the elements, anything else becomes an
extra string property.  Primitives are unreachable here (the traversal only
ever assigns into containers); they are returned unchanged. -/
def assignProp (cur : JValue) (key : String) (v : JValue) : JValue :=
  match cur with
  | vObj fields => vObj (storeField fields key v)
  | vArr elems props =>
      match parseIndex key with
      | some i => vArr (updatePad elems i v) props
      | none => vArr elems (storeField props key v)
  | other => other

/-- JS object spread `{ ...value }` as used for the top-level clone:
objects keep all own fields, arrays contribute their indexed elements (plus
extra properties), primitives contribute nothing.  (String character
spreading is outside the modelled JSON domain, see the header note.) -/
def spreadToObj : JValue → List (String × JValue)
  | vObj fields => fields
  | vArr elems props => (elems.enum.map fun p => (toString p.1, p.2)) ++ props
  | _ => []

end JValue

/-- The traversal loop of `setNestedValue`: walk the already-cloned current
container down the remaining parts, shallow-cloning each existing spine value
(`[...existing]` for arrays — which drops their extra string properties —
`{...existing}` for objects, and a fresh `{}` when the intermediate is absent
or not an object), then assign the value at the final segment.  This is the
functional rendering of the source's in-place mutation of fresh clones. -/
def setIn (cur : JValue) (parts : List String) (v : JValue) : JValue :=
  match parts with
  | [] => cur
  | [last] => JValue.assignProp cur last v
  | p :: rest =>
      let existing := JValue.getProp cur p
      let child : JValue :=
        match existing with
        | JValue.vArr elems _ => JValue.vArr elems []
        | JValue.vObj fields => JValue.vObj fields
        | _ => JValue.vObj []
      JValue.assignProp cur p (setIn child rest v)

/-- `setNestedValue(path, value)`: a no-op for an empty or all-empty-segments
path, otherwise clone `{ ...formData }` and write along the filtered dotted
path, returning the new root. -/
def setNestedValue (fd : JValue) (path : String) (v : JValue) : JValue :=
  if path = "" then fd
  else
    match splitPath path with
    | [] => fd
    | parts => setIn (JValue.vObj (JValue.spreadToObj fd)) parts v

/-- JavaScript whitespace (the common members of the `\s` class). -/
def isJsSpace (c : Char) : Bool :=
  c = ' ' || c = '\t' || c = '\n' || c = '\r' || c.toNat = 11 || c.toNat = 12 ||
    c.toNat = 160 || c.toNat = 65279

/-- The engine's email check `/^[^\s@]+@[^\s@]+\.[^\s@]+$/.test(s)`: a
non-empty run of non-space-non-`@` characters, an `@`, then a tail without
spaces or `@` containing a `.` with at least one character on each side. -/
def emailTest (s : String) : Bool :=
  let ok : Char → Bool := fun c => !(c = '@' || isJsSpace c)
  let cs := s.data
  let a := cs.takeWhile ok
  match cs.drop a.length with
  | '@' :: r => !a.isEmpty && r.all ok && ((r.drop 1).dropLast.contains '.')
  | _ => false

/-- Decimal rendering of a rational; exact for the integral values that occur
in the schemas under study (JavaScript number formatting of non-integral
doubles is not modelled further). -/
def ratToString (q : Rat) : String :=
  if q.den = 1 then toString q.num else toString q.num ++ "/" ++ toString q.den

/-- True for `null` and `undefined`, which stringify to `""` inside arrays. -/
def isNullOrUndef : JValue → Bool
  | JValue.vUndefined => true
  | JValue.vNull => true
  | _ => false

mutual
/-- JavaScript `ToString` on the modelled values (used by `RegExp.test`
coercion): arrays join their elements with `,`, objects print as
`[object Object]`. -/
def jsToString : JValue → String
  | JValue.vUndefined => "undefined"
  | JValue.vNull => "null"
  | JValue.vBool true => "true"
  | JValue.vBool false => "false"
  | JValue.vStr s => s
  | JValue.vNum q => ratToString q
  | JValue.vArr elems _ => String.intercalate "," (jsToStringElems elems)
  | JValue.vObj _ => "[object Object]"

/-- Element-wise stringification for array joining. -/
def jsToStringElems : List JValue → List String
  | [] => []
  | v :: rest => (if isNullOrUndef v then "" else jsToString v) :: jsToStringElems rest
end

/-- Numeric value of a digit run. -/
def digitsToNat (cs : List Char) : Nat :=
  cs.foldl (fun a c => a * 10 + (c.toNat - 48)) 0

/-- JavaScript `Number(string)` on the decimal forms `[+-]?digits[.digits]`,
`[+-]?.digits` and the empty/whitespace string (which coerces to `0`).
Exponential, hexadecimal and `Infinity` forms are outside the inputs under
study and are treated as `NaN` (`none`). -/
def parseJsNumber (s : String) : Option Rat :=
  let cs := (s.data.dropWhile isJsSpace).reverse.dropWhile isJsSpace |>.reverse
  if cs = [] then some 0
  else
    let sgn : Rat := if cs.head? = some '-' then -1 else 1
    let cs := if cs.head? = some '-' ∨ cs.head? = some '+' then cs.drop 1 else cs
    let ip := cs.takeWhile Char.isDigit
    let rest := cs.drop ip.length
    match rest with
    | [] => if ip = [] then none else some (sgn * (digitsToNat ip : Rat))
    | '.' :: fr =>
        if fr.all Char.isDigit ∧ (ip ≠ [] ∨ fr ≠ []) then
          some (sgn * ((digitsToNat ip : Rat) + (digitsToNat fr : Rat) / (10 : Rat) ^ fr.length))
        else none
    | _ => none

/-- JavaScript `Number(value)` (`ToNumber`): `undefined` is `NaN` (`none`);
object-to-primitive coercion is outside the modelled JSON answers domain. -/
def jsToNumber : JValue → Option Rat
  | JValue.vNum q => some q
  | JValue.vBool b => some (if b then 1 else 0)
  | JValue.vNull => some 0
  | JValue.vUndefined => none
  | JValue.vStr s => parseJsNumber s
  | JValue.vArr _ _ => none
  | JValue.vObj _ => none

/-- JavaScript `value.length` where the validator reads it: a number for
strings and arrays, `undefined` (`none`) otherwise — and an `undefined`
length makes every `<`/`>` comparison false. -/
def jsLength : JValue → Option Nat
  | JValue.vStr s => some s.length
  | JValue.vArr elems _ => some elems.length
  | _ => none

/-- `o < m` under JS semantics when `o` may be `undefined`. -/
def lenLt (o : Option Nat) (m : Nat) : Bool :=
  match o with | some l => decide (l < m) | none => false

/-- `o > m` under JS semantics when `o` may be `undefined`. -/
def lenGt (o : Option Nat) (m : Nat) : Bool :=
  match o with | some l => decide (l > m) | none => false

/-- The test `value === undefined || value === null || value === ''` guarding
required-field errors. -/
def isMissing : JValue → Bool
  | JValue.vUndefined => true
  | JValue.vNull => true
  | JValue.vStr "" => true
  | _ => false

/-- The presence test `value !== undefined && value !== null && value !== ''`
guarding the per-field rule checks; literally the negation of `isMissing`. -/
def present (v : JValue) : Bool := !isMissing v

/-- JS `option || default` for message strings (empty string is falsy). -/
def jsOr (o : Option String) (d : String) : String :=
  match o with
  | some s => if s = "" then d else s
  | none => d

/-- A schema node of the JSON-Schema subset the engine consumes.  A
JavaScript regular expression `pattern` is embedded as its test function;
`properties = some l` models a present (hence truthy, even when empty)
`properties` object while `none` models an absent one; an absent `required`
is identified with `[]` (the source reads `fieldSchema.required || []`).
The `messages` map is carried because schemas in the repository declare it. -/
inductive SchemaNode where
  | mk (type : Option String) (format : Option String)
      (pattern : Option (String → Bool)) (patternErrorMessage : Option String)
      (minimum : Option Int) (maximum : Option Int)
      (minLength : Option Nat) (maxLength : Option Nat)
      (enum : Option (List String)) (items : Option SchemaNode)
      (title : Option String) (required : List String)
      (properties : Option (List (String × SchemaNode)))
      (messages : List (String × String))

namespace SchemaNode

def type : SchemaNode → Option String
  | mk t _ _ _ _ _ _ _ _ _ _ _ _ _ => t

def format : SchemaNode → Option String
  | mk _ f _ _ _ _ _ _ _ _ _ _ _ _ => f

def pattern : SchemaNode → Option (String → Bool)
  | mk _ _ p _ _ _ _ _ _ _ _ _ _ _ => p

def patternErrorMessage : SchemaNode → Option String
  | mk _ _ _ p _ _ _ _ _ _ _ _ _ _ => p

def minimum : SchemaNode → Option Int
  | mk _ _ _ _ m _ _ _ _ _ _ _ _ _ => m

def maximum : SchemaNode → Option Int
  | mk _ _ _ _ _ m _ _ _ _ _ _ _ _ => m

def minLength : SchemaNode → Option Nat
  | mk _ _ _ _ _ _ m _ _ _ _ _ _ _ => m

def maxLength : SchemaNode → Option Nat
  | mk _ _ _ _ _ _ _ m _ _ _ _ _ _ => m

def enum : SchemaNode → Option (List String)
  | mk _ _ _ _ _ _ _ _ e _ _ _ _ _ => e

def items : SchemaNode → Option SchemaNode
  | mk _ _ _ _ _ _ _ _ _ i _ _ _ _ => i

def title : SchemaNode → Option String
  | mk _ _ _ _ _ _ _ _ _ _ t _ _ _ => t

def required : SchemaNode → List String
  | mk _ _ _ _ _ _ _ _ _ _ _ r _ _ => r

def properties : SchemaNode → Option (List (String × SchemaNode))
  | mk _ _ _ _ _ _ _ _ _ _ _ _ p _ => p

def messages : SchemaNode → List (String × String)
  | mk _ _ _ _ _ _ _ _ _ _ _ _ _ m => m

/-- A node with every optional member absent. -/
def blank : SchemaNode :=
  mk none none none none none none none none none none none [] none []

end SchemaNode

/-- `errors[key] = msg` on the flat error map (insert or replace, preserving
JavaScript object key order). -/
def storeErr : List (String × String) → String → String → List (String × String)
  | [], key, msg => [(key, msg)]
  | (k, m) :: rest, key, msg =>
      if k = key then (key, msg) :: rest else (k, m) :: storeErr rest key msg

/-- Reading `errors[key]`. -/
def lookupErr : List (String × String) → String → Option String
  | [], _ => none
  | (k, m) :: rest, key => if k = key then some m else lookupErr rest key

/-- `Object.assign(errors, nestedErrors)`: store every binding of the second
map into the first, in order. -/
def mergeErrs (e : List (String × String)) : List (String × String) → List (String × String)
  | [] => e
  | (k, m) :: rest => mergeErrs (storeErr e k m) rest

/-- The `required.forEach` loop of `validateFormFields`: record
"This field is required" at each required name whose value is missing. -/
def requiredCheck (fd : JValue) (basePath : String) (errs : List (String × String)) :
    List String → List (String × String)
  | [] => errs
  | name :: rest =>
      let fieldPath := joinPath basePath name
      requiredCheck fd basePath
        (if isMissing (getNestedValue fd fieldPath) then
          storeErr errs fieldPath "This field is required"
        else errs) rest

/-- The email block: `if (fieldSchema.format === 'email') { if
(!emailRegex.test(value)) errors[fieldPath] = 'Invalid email address' }`. -/
def emailStage (s : SchemaNode) (p : String) (v : JValue)
    (e : List (String × String)) : List (String × String) :=
  if s.format = some "email" ∧ emailTest (jsToString v) = false then
    storeErr e p "Invalid email address"
  else e

/-- The pattern block: a truthy `pattern` whose regular expression rejects
the value stores `patternErrorMessage || 'Invalid format'`. -/
def patternStage (s : SchemaNode) (p : String) (v : JValue)
    (e : List (String × String)) : List (String × String) :=
  match s.pattern with
  | some test =>
      if test (jsToString v) = false then
        storeErr e p (jsOr s.patternErrorMessage "Invalid format")
      else e
  | none => e

/-- The number block: for `number`/`integer` nodes, a `NaN` coercion stores
"Must be a number", otherwise the `minimum` check and then the `maximum`
check each store their bound message when violated. -/
def numberStage (s : SchemaNode) (p : String) (v : JValue)
    (e : List (String × String)) : List (String × String) :=
  if s.type = some "number" ∨ s.type = some "integer" then
    match jsToNumber v with
    | none => storeErr e p "Must be a number"
    | some q =>
        let ea :=
          match s.minimum with
          | some m =>
              if q < (m : Rat) then storeErr e p ("Must be at least " ++ toString m) else e
          | none => e
        match s.maximum with
        | some m =>
            if q > (m : Rat) then storeErr ea p ("Must be at most " ++ toString m) else ea
        | none => ea
  else e

/-- The string-length block: for `string` nodes, a truthy `minLength` and
then a truthy `maxLength` each store their message when violated (an
`undefined` length compares false against both bounds). -/
def lengthStage (s : SchemaNode) (p : String) (v : JValue)
    (e : List (String × String)) : List (String × String) :=
  if s.type = some "string" then
    let eb :=
      match s.minLength with
      | some m =>
          if m ≠ 0 ∧ lenLt (jsLength v) m = true then
            storeErr e p ("Must be at least " ++ toString m ++ " characters")
          else e
      | none => e
    match s.maxLength with
    | some m =>
        if m ≠ 0 ∧ lenGt (jsLength v) m = true then
          storeErr eb p ("Must be at most " ++ toString m ++ " characters")
        else eb
    | none => eb
  else e

/-- The per-field rule block of `validateFormFields` for a present value:
the email, pattern, number and string-length blocks run in this order on the
same `errors` object, each failing rule assigning `errors[fieldPath]` — so a
later failing rule overwrites the message of an earlier one. -/
def checkLeaf (s : SchemaNode) (p : String) (v : JValue) (errs : List (String × String)) :
    List (String × String) :=
  if present v then
    lengthStage s p v (numberStage s p v (patternStage s p v (emailStage s p v errs)))
  else errs

/-- Store an optional message at a key (no message: map unchanged). -/
def optStore (errs : List (String × String)) (p : String) : Option String → List (String × String)
  | some m => storeErr errs p m
  | none => errs

/-- Message-level twin of `emailStage`: the message standing after the email
block, given the message `mo` standing before it. -/
def emailMsg (s : SchemaNode) (v : JValue) (mo : Option String) : Option String :=
  if s.format = some "email" ∧ emailTest (jsToString v) = false then
    some "Invalid email address"
  else mo

/-- Message-level twin of `patternStage`. -/
def patternMsg (s : SchemaNode) (v : JValue) (mo : Option String) : Option String :=
  match s.pattern with
  | some test =>
      if test (jsToString v) = false then
        some (jsOr s.patternErrorMessage "Invalid format")
      else mo
  | none => mo

/-- Message-level twin of `numberStage`. -/
def numberMsg (s : SchemaNode) (v : JValue) (mo : Option String) : Option String :=
  if s.type = some "number" ∨ s.type = some "integer" then
    match jsToNumber v with
    | none => some "Must be a number"
    | some q =>
        let ma :=
          match s.minimum with
          | some m => if q < (m : Rat) then some ("Must be at least " ++ toString m) else mo
          | none => mo
        match s.maximum with
        | some m => if q > (m : Rat) then some ("Must be at most " ++ toString m) else ma
        | none => ma
  else mo

/-- Message-level twin of `lengthStage`. -/
def lengthMsg (s : SchemaNode) (v : JValue) (mo : Option String) : Option String :=
  if s.type = some "string" then
    let mb :=
      match s.minLength with
      | some m =>
          if m ≠ 0 ∧ lenLt (jsLength v) m = true then
            some ("Must be at least " ++ toString m ++ " characters")
          else mo
      | none => mo
    match s.maxLength with
    | some m =>
        if m ≠ 0 ∧ lenGt (jsLength v) m = true then
          some ("Must be at most " ++ toString m ++ " characters")
        else mb
    | none => mb
  else mo

/-- The message that the leaf rule block leaves recorded for a field: the
rule chain run (in source order) on an empty slot, so that the *last*
failing rule's message survives; `none` when the value is absent or every
applicable rule passes. -/
def leafResult (s : SchemaNode) (v : JValue) : Option String :=
  if present v then
    lengthMsg s v (numberMsg s v (patternMsg s v (emailMsg s v none)))
  else none

/-- The email rule applies and rejects the value. -/
def emailFail (s : SchemaNode) (v : JValue) : Bool :=
  decide (s.format = some "email") && !emailTest (jsToString v)

/-- A declared pattern rejects the value. -/
def patternFail (s : SchemaNode) (v : JValue) : Bool :=
  match s.pattern with
  | some test => !test (jsToString v)
  | none => false

/-- The declared `minimum` bound rejects the numeric value. -/
def numMinFail (s : SchemaNode) (q : Rat) : Bool :=
  match s.minimum with
  | some m => decide (q < (m : Rat))
  | none => false

/-- The declared `maximum` bound rejects the numeric value. -/
def numMaxFail (s : SchemaNode) (q : Rat) : Bool :=
  match s.maximum with
  | some m => decide (q > (m : Rat))
  | none => false

/-- A truthy `minLength` rejects the value's length. -/
def minLenFail (s : SchemaNode) (v : JValue) : Bool :=
  match s.minLength with
  | some m => decide (m ≠ 0) && lenLt (jsLength v) m
  | none => false

/-- A truthy `maxLength` rejects the value's length. -/
def maxLenFail (s : SchemaNode) (v : JValue) : Bool :=
  match s.maxLength with
  | some m => decide (m ≠ 0) && lenGt (jsLength v) m
  | none => false

/-- The message of the *last* failing rule in the source's rule order
(email, pattern, number, string length), written as a first-match cascade
over the reversed order.  This is the specification-level reading of what
the overwriting rule chain records. -/
def lastFailingMsg (s : SchemaNode) (v : JValue) : Option String :=
  if present v then
    if s.type = some "string" ∧ maxLenFail s v = true then
      some ("Must be at most " ++ toString (s.maxLength.getD 0) ++ " characters")
    else if s.type = some "string" ∧ minLenFail s v = true then
      some ("Must be at least " ++ toString (s.minLength.getD 0) ++ " characters")
    else if s.type = some "number" ∨ s.type = some "integer" then
      match jsToNumber v with
      | none => some "Must be a number"
      | some q =>
          if numMaxFail s q then some ("Must be at most " ++ toString (s.maximum.getD 0))
          else if numMinFail s q then some ("Must be at least " ++ toString (s.minimum.getD 0))
          else if patternFail s v then some (jsOr s.patternErrorMessage "Invalid format")
          else if emailFail s v then some "Invalid email address"
          else none
    else if patternFail s v then some (jsOr s.patternErrorMessage "Invalid format")
    else if emailFail s v then some "Invalid email address"
    else none
  else none

/-- The recursion ceiling of the validator (and of rendering). -/
def MAX_DEPTH : Nat := 10

/-- Auxiliary size fact used for the termination of the validator. -/
theorem sizeOf_of_properties_eq_some {s : SchemaNode} {l : List (String × SchemaNode)}
    (h : s.properties = some l) : sizeOf l < sizeOf s := by
  cases s with
  | mk t f pa pe mi ma mnl mxl en it ti rq pr ms =>
      simp only [SchemaNode.properties] at h
      subst h
      simp only [SchemaNode.mk.sizeOf_spec, Option.some.sizeOf_spec]
      omega

mutual
/-- `validateFormFields(properties, required, basePath, depth)`: abort with an
empty map beyond `MAX_DEPTH`, otherwise run the required-name loop and then
the per-property loop over the same `errors` object. -/
def validateFormFields (fd : JValue) (props : List (String × SchemaNode))
    (required : List String) (basePath : String) (depth : Nat) : List (String × String) :=
  if depth > MAX_DEPTH then []
  else validateProps fd props basePath depth (requiredCheck fd basePath [] required)
termination_by (sizeOf props, 1)
decreasing_by omega

/-- The `Object.entries(properties).forEach` loop: an object-typed child with
a (truthy) `properties` member recurses and merges its nested errors via
`Object.assign`; every other child runs the leaf rule block. -/
def validateProps (fd : JValue) (props : List (String × SchemaNode)) (basePath : String)
    (depth : Nat) (errs : List (String × String)) : List (String × String) :=
  match props with
  | [] => errs
  | (name, s) :: rest =>
      let fieldPath := joinPath basePath name
      let errsNext :=
        match h : s.properties with
        | some childProps =>
            if s.type = some "object" then
              mergeErrs errs (validateFormFields fd childProps s.required fieldPath (depth + 1))
            else checkLeaf s fieldPath (getNestedValue fd fieldPath) errs
        | none => checkLeaf s fieldPath (getNestedValue fd fieldPath) errs
      validateProps fd rest basePath depth errsNext
termination_by (sizeOf props, 0)
decreasing_by
  · simp_wf
    have := sizeOf_of_properties_eq_some h
    omega
  · simp_wf
    omega
end

/-- Over-approximation of the keys `validateFormFields(props, req, bp, _)`
can ever bind: a required name joined to the base path, a property name
joined to the base path, or (through an object-typed child with a
`properties` member) a key writable by the child's own validation call. -/
inductive MayWrite : List (String × SchemaNode) → List String → String → String → Prop where
  | ofRequired {props : List (String × SchemaNode)} {req : List String} {bp k n : String}
      (h1 : n ∈ req) (h2 : k = joinPath bp n) : MayWrite props req bp k
  | ofLeaf {props : List (String × SchemaNode)} {req : List String} {bp k name : String}
      {s : SchemaNode} (h1 : (name, s) ∈ props) (h2 : k = joinPath bp name) :
      MayWrite props req bp k
  | ofChild {props : List (String × SchemaNode)} {req : List String} {bp k name : String}
      {s : SchemaNode} {childProps : List (String × SchemaNode)}
      (h1 : (name, s) ∈ props) (h2 : s.type = some "object")
      (h3 : s.properties = some childProps)
      (h4 : MayWrite childProps s.required (joinPath bp name) k) : MayWrite props req bp k

/-- The shapes `renderInput` can produce, by the cascade of the source. -/
inductive RenderKind where
  | checkboxGroup (opts : List String)
  | multiSelect (opts : List String)
  | radioGroup (opts : List String)
  | selectMenu (opts : List String)
  | boolCheckbox
  | emailInput
  | dateInput
  | textareaInput
  | textInput
  | numberInput (intStep : Bool)
deriving DecidableEq

/-- `fieldSchema.items?.enum` (optional chaining). -/
def itemsEnum (s : SchemaNode) : Option (List String) :=
  match s.items with
  | some it => it.enum
  | none => none

/-- The widget-selection cascade of `renderInput(fieldPath, fieldSchema,
value, uiOptions)`, as a pure decision on the schema node and the
`ui:widget` hint: array-of-enum with `checkboxes`, array-of-enum,
enum with `radio`, enum, boolean, string (email/date/textarea/text),
number, fallback text. -/
def renderInput (s : SchemaNode) (widget : Option String) : RenderKind :=
  if s.type = some "array" ∧ itemsEnum s ≠ none ∧ widget = some "checkboxes" then
    RenderKind.checkboxGroup ((itemsEnum s).getD [])
  else if s.type = some "array" ∧ itemsEnum s ≠ none then
    RenderKind.multiSelect ((itemsEnum s).getD [])
  else if s.enum ≠ none ∧ widget = some "radio" then
    RenderKind.radioGroup (s.enum.getD [])
  else if s.enum ≠ none then
    RenderKind.selectMenu (s.enum.getD [])
  else if s.type = some "boolean" then
    RenderKind.boolCheckbox
  else if s.type = some "string" then
    if s.format = some "email" then RenderKind.emailInput
    else if s.format = some "date" then RenderKind.dateInput
    else if widget = some "textarea" then RenderKind.textareaInput
    else RenderKind.textInput
  else if s.type = some "number" ∨ s.type = some "integer" then
    RenderKind.numberInput (s.type = some "integer")
  else RenderKind.textInput

/-- How many `<input>` elements (carrying a `name` attribute) the produced
markup contains: one per option for radio and checkbox groups, one for the
plain controls, and a `<select>` for the menu shapes. -/
def inputElementCount : RenderKind → Nat
  | RenderKind.checkboxGroup opts => opts.length
  | RenderKind.radioGroup opts => opts.length
  | _ => 1

/-- A string enum node carrying a title, as in the repository's
`notification_status` example. -/
def enumNode (opts : List String) (t : String) : SchemaNode :=
  SchemaNode.mk (some "string") none none none none none none none (some opts) none
    (some t) [] none []

/-- The value at `a` does not hold `key` as a non-index own array property
(the configuration under which a spine array's shallow clone `[...existing]`
loses nothing observable at `key`). -/
def arrPropFree (v : JValue) (key : String) : Bool :=
  match v with
  | JValue.vArr _ pr => (JValue.lookupField pr key).isNone
  | _ => true

/-- A string node declaring both an email format and a digits-only pattern,
used to exercise simultaneous rule failures. -/
def emailPatternNode : SchemaNode :=
  SchemaNode.mk (some "string") (some "email") (some fun t => t.data.all Char.isDigit)
    none none none none none none none none [] none []

/-- A string node carrying a custom `messages.required` entry. -/
def msgNode (custom : String) : SchemaNode :=
  SchemaNode.mk (some "string") none none none none none none none none none
    none [] none [("required", custom)]

/-- An object-typed schema node with the given children and required list. -/
def objNode (props : List (String × SchemaNode)) (req : List String) : SchemaNode :=
  SchemaNode.mk (some "object") none none none none none none none none none
    none req (some props) []

/-- The submission-relevant component state: the `submitting` single-flight
flag and a count of POSTs issued to the submission endpoint. -/
structure SubmitMachine where
  submitting : Bool
  postCount : Nat
deriving DecidableEq

/-- The synchronous prefix of `handleSubmit` up to its first `await`: return
early when validation fails; return early when `submitting` is already set;
otherwise set `submitting` and issue the POST.  Because the event loop runs
this prefix atomically, a submit event arriving while a previous submission
is still in flight observes `submitting = true`. -/
def submitEvent (valid : Bool) (m : SubmitMachine) : SubmitMachine :=
  if valid = false then m
  else if m.submitting then m
  else { submitting := true, postCount := m.postCount + 1 }

/-- The `finally` clause: leaving the in-flight state always clears the
guard, whatever the outcome was. -/
def submitResolve (m : SubmitMachine) : SubmitMachine :=
  { m with submitting := false }

/-- An HTTP response as `handleSubmit` observes it. -/
structure HttpResponse where
  ok : Bool
  status : Nat
  statusText : String
deriving DecidableEq

/-- The network outcome of one `handleSubmit` run past validation. -/
structure SubmitOutcome where
  submissionCalls : Nat
  refreshCalls : Nat
  errorMessage : Option String
deriving DecidableEq

/-- The transport behaviour of `handleSubmit` in `src/form-builder.js`
as a function of the submission response: exactly one `fetch` POST is made;
a non-ok response of any status (403 included, with or without an `oidc-url`
configured) throws `Failed to submit form: <statusText>` into the catch
block, which stores that message; no token refresh and no retry occur. -/
def handleSubmitTransport (resp : HttpResponse) : SubmitOutcome :=
  if resp.ok then { submissionCalls := 1, refreshCalls := 0, errorMessage := none }
  else
    { submissionCalls := 1, refreshCalls := 0,
      errorMessage := some ("Failed to submit form: " ++ resp.statusText) }

/-! ### Facts about dotted paths -/

/-- A path segment with no internal dot (the well-formed-name condition of
the data model: names split/join losslessly exactly when they are dot-free). -/
def dotFree (s : String) : Bool := decide ('.' ∉ s.data)

theorem dotFree_iff {s : String} : dotFree s = true ↔ '.' ∉ s.data := by
  simp [dotFree]

theorem mk_data (s : String) : String.mk s.data = s := by cases s; rfl

theorem data_join (x w : String) : (x ++ "." ++ w).data = x.data ++ '.' :: w.data := by
  have hdot : ("." : String).data = ['.'] := rfl
  rw [String.data_append, String.data_append, hdot, List.append_assoc, List.singleton_append]

theorem str_append_left_cancel {s t u : String} (h : s ++ t = s ++ u) : t = u := by
  apply String.ext
  have h2 := congrArg String.data h
  rw [String.data_append, String.data_append] at h2
  exact List.append_cancel_left h2

theorem join_ne_empty (x w : String) : x ++ "." ++ w ≠ "" := by
  intro h
  have h2 := congrArg String.data h
  rw [data_join] at h2
  simp at h2

theorem dot_mem_join (x w : String) : '.' ∈ (x ++ "." ++ w).data := by
  rw [data_join]
  simp

theorem dotFree_ne_join {n : String} (hn : dotFree n = true) (x w : String) :
    n ≠ x ++ "." ++ w := by
  intro h
  exact dotFree_iff.mp hn (h ▸ dot_mem_join x w)

theorem sep_split_eq : ∀ {xs ys us vs : List Char}, '.' ∉ xs → '.' ∉ ys →
    xs ++ '.' :: us = ys ++ '.' :: vs → xs = ys ∧ us = vs := by
  intro xs
  induction xs with
  | nil =>
      intro ys us vs _ hy h
      cases ys with
      | nil => simpa using h
      | cons y ys' =>
          simp only [List.nil_append, List.cons_append, List.cons.injEq] at h
          exact absurd (h.1 ▸ List.mem_cons_self y ys') hy
  | cons x xs' ih =>
      intro ys us vs hx hy h
      cases ys with
      | nil =>
          simp only [List.nil_append, List.cons_append, List.cons.injEq] at h
          exact absurd (h.1 ▸ List.mem_cons_self x xs') hx
      | cons y ys' =>
          simp only [List.cons_append, List.cons.injEq] at h
          obtain ⟨rfl, h2⟩ := h
          have hx' : '.' ∉ xs' := fun hm => hx (List.mem_cons_of_mem _ hm)
          have hy' : '.' ∉ ys' := fun hm => hy (List.mem_cons_of_mem _ hm)
          obtain ⟨rfl, rfl⟩ := ih hx' hy' h2
          exact ⟨rfl, rfl⟩

theorem first_seg {x y u v : String} (hx : dotFree x = true) (hy : dotFree y = true)
    (h : x ++ "." ++ u = y ++ "." ++ v) : x = y ∧ u = v := by
  have h2 := congrArg String.data h
  rw [data_join, data_join] at h2
  obtain ⟨h3, h4⟩ := sep_split_eq (dotFree_iff.mp hx) (dotFree_iff.mp hy) h2
  exact ⟨String.ext h3, String.ext h4⟩

theorem joinPath_nilbp (n : String) : joinPath "" n = n := by simp [joinPath]

theorem joinPath_eq {bp : String} (h : bp ≠ "") (n : String) :
    joinPath bp n = bp ++ "." ++ n := by simp [joinPath, h]

theorem joinPath_cancel {bp x y : String} (h : joinPath bp x = joinPath bp y) : x = y := by
  by_cases hbp : bp = ""
  · subst hbp; simpa [joinPath] using h
  · rw [joinPath_eq hbp, joinPath_eq hbp] at h
    exact str_append_left_cancel h

theorem joinPath_ne_empty {bp n : String} (h : bp ≠ "" ∨ n ≠ "") : joinPath bp n ≠ "" := by
  by_cases hbp : bp = ""
  · subst hbp
    rw [joinPath_nilbp]
    exact h.resolve_left (fun hf => hf rfl)
  · rw [joinPath_eq hbp]
    exact join_ne_empty bp n

theorem splitDots_no_dot : ∀ {xs : List Char}, '.' ∉ xs → splitDots xs = [xs] := by
  intro xs
  induction xs with
  | nil => intro _; rfl
  | cons c rest ih =>
      intro h
      have hc : ¬ c = '.' := fun hf => h (hf ▸ List.mem_cons_self c rest)
      have hr : '.' ∉ rest := fun hm => h (List.mem_cons_of_mem _ hm)
      simp only [splitDots, if_neg hc, ih hr]

theorem splitDots_append {xs : List Char} (ys : List Char) (h : '.' ∉ xs) :
    splitDots (xs ++ '.' :: ys) = xs :: splitDots ys := by
  induction xs with
  | nil => simp [splitDots]
  | cons c rest ih =>
      have hc : ¬ c = '.' := fun hf => h (hf ▸ List.mem_cons_self c rest)
      have hr : '.' ∉ rest := fun hm => h (List.mem_cons_of_mem _ hm)
      rw [List.cons_append]
      simp only [splitDots, if_neg hc, ih hr]

theorem splitPath_single {a : String} (ha : dotFree a = true) (ha' : a ≠ "") :
    splitPath a = [a] := by
  unfold splitPath
  rw [splitDots_no_dot (dotFree_iff.mp ha)]
  simp [mk_data, ha']

theorem splitPath_two {a b : String} (ha : dotFree a = true) (hb : dotFree b = true)
    (ha' : a ≠ "") (hb' : b ≠ "") : splitPath (a ++ "." ++ b) = [a, b] := by
  unfold splitPath
  rw [data_join, splitDots_append _ (dotFree_iff.mp ha),
    splitDots_no_dot (dotFree_iff.mp hb)]
  simp [mk_data, ha', hb']

theorem splitPath_empty : splitPath "" = [] := rfl

/-! ### Facts about object stores and array updates -/

namespace JValue

theorem lookupField_storeField_self : ∀ (f : List (String × JValue)) (k : String) (v : JValue),
    lookupField (storeField f k v) k = some v := by
  intro f k v
  induction f with
  | nil => simp [storeField, lookupField]
  | cons kv rest ih =>
      obtain ⟨k0, v0⟩ := kv
      by_cases h : k0 = k
      · simp [storeField, lookupField, h]
      · simp [storeField, lookupField, h, ih]

theorem lookupField_storeField_ne : ∀ (f : List (String × JValue)) {k k' : String}
    (_ : k ≠ k') (v : JValue), lookupField (storeField f k v) k' = lookupField f k' := by
  intro f k k' h v
  induction f with
  | nil => simp [storeField, lookupField, h]
  | cons kv rest ih =>
      obtain ⟨k0, v0⟩ := kv
      by_cases h0 : k0 = k
      · subst h0
        simp [storeField, lookupField, h]
      · simp [storeField, lookupField, h0, ih]

theorem parseIndex_eq_toString {s : String} {n : Nat} (h : parseIndex s = some n) :
    s = toString n := by
  unfold parseIndex at h
  split at h
  · dsimp only at h
    split at h
    · rename_i heq
      rw [Option.some.inj h] at heq
      exact heq.symm
    · exact Option.noConfusion h
  · exact Option.noConfusion h

theorem getProp_storeField_self (f : List (String × JValue)) (k : String) (v : JValue) :
    getProp (vObj (storeField f k v)) k = v := by
  simp [getProp, lookupField_storeField_self]

theorem getD_ge_length : ∀ (l : List JValue) {j : Nat}, l.length ≤ j →
    l.getD j vUndefined = vUndefined := by
  intro l
  induction l with
  | nil => intro j _; simp [List.getD]
  | cons x rest ih =>
      intro j hj
      cases j with
      | zero => simp at hj
      | succ j' =>
          simp only [List.getD_cons_succ]
          exact ih (by simpa using hj)

theorem getD_set_self : ∀ (l : List JValue) (i : Nat) (v : JValue), i < l.length →
    (l.set i v).getD i vUndefined = v := by
  intro l
  induction l with
  | nil => intro i v h; simp at h
  | cons x rest ih =>
      intro i v h
      cases i with
      | zero => simp [List.set]
      | succ i' =>
          simp only [List.set, List.getD_cons_succ]
          exact ih i' v (by simpa using h)

theorem getD_set_ne : ∀ (l : List JValue) {i j : Nat}, i ≠ j → ∀ (v : JValue),
    (l.set i v).getD j vUndefined = l.getD j vUndefined := by
  intro l
  induction l with
  | nil => intro i j _ v; simp [List.set]
  | cons x rest ih =>
      intro i j hij v
      cases i with
      | zero =>
          cases j with
          | zero => exact absurd rfl hij
          | succ j' => simp [List.set]
      | succ i' =>
          cases j with
          | zero => simp [List.set]
          | succ j' =>
              simp only [List.set, List.getD_cons_succ]
              exact ih (fun hf => hij (by rw [hf])) v

theorem getD_append_left : ∀ (l1 l2 : List JValue) {j : Nat}, j < l1.length →
    (l1 ++ l2).getD j vUndefined = l1.getD j vUndefined := by
  intro l1
  induction l1 with
  | nil => intro l2 j h; simp at h
  | cons x rest ih =>
      intro l2 j h
      cases j with
      | zero => simp
      | succ j' =>
          simp only [List.cons_append, List.getD_cons_succ]
          exact ih l2 (by simpa using h)

theorem getD_append_right : ∀ (l1 l2 : List JValue) (m : Nat),
    (l1 ++ l2).getD (l1.length + m) vUndefined = l2.getD m vUndefined := by
  intro l1
  induction l1 with
  | nil => intro l2 m; simp
  | cons x rest ih =>
      intro l2 m
      have : (x :: rest).length + m = (rest.length + m) + 1 := by simp; omega
      rw [this]
      simp only [List.cons_append, List.getD_cons_succ]
      exact ih l2 m

theorem getD_replicate_lt : ∀ (m : Nat) {j : Nat}, j < m →
    (List.replicate m vUndefined).getD j vUndefined = vUndefined := by
  intro m
  induction m with
  | zero => intro j h; simp at h
  | succ m' ih =>
      intro j h
      cases j with
      | zero => simp [List.replicate]
      | succ j' =>
          simp only [List.replicate, List.getD_cons_succ]
          exact ih (by omega)

theorem rep_append_getD : ∀ (m : Nat) (v : JValue),
    (List.replicate m vUndefined ++ [v]).getD m vUndefined = v := by
  intro m
  induction m with
  | zero => intro v; simp
  | succ m' ih =>
      intro v
      simp only [List.replicate_succ, List.cons_append, List.getD_cons_succ]
      exact ih v

theorem updatePad_getD_self (l : List JValue) (i : Nat) (v : JValue) :
    (updatePad l i v).getD i vUndefined = v := by
  unfold updatePad
  by_cases h : i < l.length
  · rw [if_pos h]
    exact getD_set_self l i v h
  · rw [if_neg h]
    rw [List.append_assoc]
    have h2 := getD_append_right l (List.replicate (i - l.length) vUndefined ++ [v]) (i - l.length)
    have hi : l.length + (i - l.length) = i := by omega
    rw [hi] at h2
    rw [h2]
    exact rep_append_getD _ v

theorem updatePad_getD_ne (l : List JValue) {i j : Nat} (hij : i ≠ j) (v : JValue) :
    (updatePad l i v).getD j vUndefined = l.getD j vUndefined := by
  unfold updatePad
  by_cases h : i < l.length
  · rw [if_pos h]
    exact getD_set_ne l hij v
  · rw [if_neg h]
    rw [List.append_assoc]
    by_cases hj : j < l.length
    · exact getD_append_left _ _ hj
    · have hj' : l.length ≤ j := by omega
      rw [getD_ge_length l hj']
      have hjm : j = l.length + (j - l.length) := by omega
      rw [hjm, getD_append_right]
      by_cases hlt : j - l.length < i - l.length
      · rw [getD_append_left _ _ (by rw [List.length_replicate]; omega)]
        exact getD_replicate_lt _ hlt
      · have : (List.replicate (i - l.length) vUndefined).length + 1 ≤ j - l.length := by
          simp only [List.length_replicate]
          omega
        rw [getD_ge_length]
        simp only [List.length_append, List.length_replicate, List.length_singleton]
        omega

/-- Containers are objects and arrays; `setNestedValue` only ever assigns
into containers. -/
def isContainer : JValue → Bool
  | vObj _ => true
  | vArr _ _ => true
  | _ => false

theorem getProp_assignProp_self {cur : JValue} (h : isContainer cur = true)
    (k : String) (v : JValue) : getProp (assignProp cur k v) k = v := by
  cases cur with
  | vObj fields => simp only [getProp, assignProp, lookupField_storeField_self, Option.getD_some]
  | vArr elems props =>
      cases hpi : parseIndex k with
      | some i =>
          simp only [getProp, assignProp, hpi]
          exact updatePad_getD_self elems i v
      | none =>
          simp only [getProp, assignProp, hpi, lookupField_storeField_self, Option.getD_some]
  | vUndefined => simp [isContainer] at h
  | vNull => simp [isContainer] at h
  | vBool b => simp [isContainer] at h
  | vNum q => simp [isContainer] at h
  | vStr s => simp [isContainer] at h

end JValue

theorem setIn_roundtrip : ∀ (parts : List String) (cur v : JValue), parts ≠ [] →
    JValue.isContainer cur = true → parts.foldl JValue.getProp (setIn cur parts v) = v := by
  intro parts
  induction parts with
  | nil => intro cur v h _; exact absurd rfl h
  | cons p rest ih =>
      intro cur v _ hc
      cases rest with
      | nil =>
          simp only [setIn, List.foldl]
          rw [JValue.getProp_assignProp_self hc]
      | cons q rest' =>
          simp only [setIn, List.foldl]
          rw [JValue.getProp_assignProp_self hc]
          have hcc : JValue.isContainer
              (match JValue.getProp cur p with
                | JValue.vArr elems _ => JValue.vArr elems []
                | JValue.vObj fields => JValue.vObj fields
                | _ => JValue.vObj []) = true := by
            cases JValue.getProp cur p <;> rfl
          exact ih _ v (by simp) hcc

/-! ### Facts about the error map -/

/-- The keys of the error map are pairwise distinct (as for a JS object). -/
def errKeysND (e : List (String × String)) : Prop := (e.map Prod.fst).Nodup

theorem lookupErr_storeErr (e : List (String × String)) (k m k' : String) :
    lookupErr (storeErr e k m) k' = if k = k' then some m else lookupErr e k' := by
  induction e with
  | nil => simp [storeErr, lookupErr]
  | cons kv rest ih =>
      obtain ⟨k0, m0⟩ := kv
      by_cases h0 : k0 = k
      · subst h0
        simp only [storeErr, if_pos rfl, lookupErr]
        by_cases h1 : k0 = k' <;> simp [h1]
      · simp only [storeErr, if_neg h0, lookupErr, ih]
        by_cases h1 : k0 = k'
        · subst h1
          have h2 : ¬ k = k0 := fun hf => h0 hf.symm
          simp [h2]
        · simp [h1]

theorem storeErr_storeErr_self (e : List (String × String)) (k a b : String) :
    storeErr (storeErr e k a) k b = storeErr e k b := by
  induction e with
  | nil => simp [storeErr]
  | cons kv rest ih =>
      obtain ⟨k0, m0⟩ := kv
      by_cases h0 : k0 = k
      · subst h0
        simp [storeErr]
      · simp [storeErr, h0, ih]

theorem mem_keys_storeErr {e : List (String × String)} {k m x : String} :
    x ∈ (storeErr e k m).map Prod.fst ↔ x ∈ e.map Prod.fst ∨ x = k := by
  induction e with
  | nil => simp [storeErr]
  | cons kv rest ih =>
      obtain ⟨k0, m0⟩ := kv
      by_cases h0 : k0 = k
      · subst h0
        simp only [storeErr, if_pos rfl]
        simp
        tauto
      · simp only [storeErr, if_neg h0, List.map_cons, List.mem_cons, ih]
        tauto

theorem lookupErr_eq_none_iff {e : List (String × String)} {k : String} :
    lookupErr e k = none ↔ k ∉ e.map Prod.fst := by
  induction e with
  | nil => simp [lookupErr]
  | cons kv rest ih =>
      obtain ⟨k0, m0⟩ := kv
      by_cases h0 : k0 = k
      · subst h0
        simp [lookupErr]
      · have h2 : ¬ k = k0 := fun hf => h0 hf.symm
        simp [lookupErr, h0, ih, h2]

theorem storeErr_nodup {e : List (String × String)} {k m : String} (h : errKeysND e) :
    errKeysND (storeErr e k m) := by
  induction e with
  | nil => simp [storeErr, errKeysND]
  | cons kv rest ih =>
      obtain ⟨k0, m0⟩ := kv
      simp only [errKeysND, List.map_cons, List.nodup_cons] at h
      by_cases h0 : k0 = k
      · subst h0
        simpa [storeErr, errKeysND] using h
      · have := ih h.2
        simp only [storeErr, if_neg h0, errKeysND, List.map_cons, List.nodup_cons]
        refine ⟨fun hm => ?_, this⟩
        rcases mem_keys_storeErr.mp hm with h2 | h2
        · exact h.1 h2
        · exact h0 h2

/-- The value of the *last* binding of a key in an association list: this is
what `Object.assign`-style merging makes visible. -/
def assocLast : List (String × String) → String → Option String
  | [], _ => none
  | (k0, m0) :: rest, k =>
      match assocLast rest k with
      | some m => some m
      | none => if k0 = k then some m0 else none

theorem lookupErr_mergeErrs (kvs : List (String × String)) :
    ∀ (e : List (String × String)) (k : String),
      lookupErr (mergeErrs e kvs) k =
        match assocLast kvs k with
        | some m => some m
        | none => lookupErr e k := by
  induction kvs with
  | nil => intro e k; simp [mergeErrs, assocLast]
  | cons kv rest ih =>
      obtain ⟨k0, m0⟩ := kv
      intro e k
      simp only [mergeErrs, assocLast, ih, lookupErr_storeErr]
      cases assocLast rest k with
      | some m => simp
      | none =>
          by_cases h0 : k0 = k <;> simp [h0]

theorem assocLast_eq_lookupErr {kvs : List (String × String)} (h : errKeysND kvs)
    (k : String) : assocLast kvs k = lookupErr kvs k := by
  induction kvs with
  | nil => rfl
  | cons kv rest ih =>
      obtain ⟨k0, m0⟩ := kv
      simp only [errKeysND, List.map_cons, List.nodup_cons] at h
      simp only [assocLast, lookupErr, ih h.2]
      by_cases h0 : k0 = k
      · subst h0
        have : lookupErr rest k0 = none := lookupErr_eq_none_iff.mpr h.1
        simp [this]
      · cases lookupErr rest k <;> simp [h0]

theorem assocLast_none_iff {kvs : List (String × String)} {k : String} :
    assocLast kvs k = none ↔ lookupErr kvs k = none := by
  induction kvs with
  | nil => simp [assocLast, lookupErr]
  | cons kv rest ih =>
      obtain ⟨k0, m0⟩ := kv
      simp only [assocLast, lookupErr]
      cases hal : assocLast rest k with
      | some m =>
          have : lookupErr rest k ≠ none := fun hf => by simp [ih.mpr hf] at hal
          by_cases h0 : k0 = k <;> simp [h0, this]
      | none =>
          have : lookupErr rest k = none := ih.mp hal
          by_cases h0 : k0 = k <;> simp [h0, this]

theorem mergeErrs_nodup (kvs : List (String × String)) :
    ∀ {e : List (String × String)}, errKeysND e → errKeysND (mergeErrs e kvs) := by
  induction kvs with
  | nil => intro e h; exact h
  | cons kv rest ih =>
      obtain ⟨k0, m0⟩ := kv
      intro e h
      exact ih (storeErr_nodup h)

theorem lookupErr_mergeErrs_ne_none {kvs e : List (String × String)} {k : String}
    (h : lookupErr e k ≠ none) : lookupErr (mergeErrs e kvs) k ≠ none := by
  rw [lookupErr_mergeErrs]
  cases assocLast kvs k <;> simp [h]

/-! ### The leaf rule block records exactly the last failing rule's message -/

theorem optStore_write {errs : List (String × String)} {p : String} {mo : Option String}
    {e : List (String × String)} (he : e = optStore errs p mo) (msg : String) :
    storeErr e p msg = optStore errs p (some msg) := by
  subst he
  cases mo <;> simp [optStore, storeErr_storeErr_self]

theorem optStore_step {errs : List (String × String)} {p : String} {mo : Option String}
    {e : List (String × String)} (he : e = optStore errs p mo) (c : Prop) [Decidable c]
    (msg : String) :
    (if c then storeErr e p msg else e) = optStore errs p (if c then some msg else mo) := by
  by_cases hc : c
  · simp only [if_pos hc]
    exact optStore_write he msg
  · simp only [if_neg hc]
    exact he

theorem emailStage_eq {errs : List (String × String)} {p : String} {mo : Option String}
    {e : List (String × String)} (he : e = optStore errs p mo) (s : SchemaNode) (v : JValue) :
    emailStage s p v e = optStore errs p (emailMsg s v mo) := by
  unfold emailStage emailMsg
  exact optStore_step he _ _

theorem patternStage_eq {errs : List (String × String)} {p : String} {mo : Option String}
    {e : List (String × String)} (he : e = optStore errs p mo) (s : SchemaNode) (v : JValue) :
    patternStage s p v e = optStore errs p (patternMsg s v mo) := by
  unfold patternStage patternMsg
  cases s.pattern with
  | none => exact he
  | some test => exact optStore_step he _ _

theorem numberStage_eq {errs : List (String × String)} {p : String} {mo : Option String}
    {e : List (String × String)} (he : e = optStore errs p mo) (s : SchemaNode) (v : JValue) :
    numberStage s p v e = optStore errs p (numberMsg s v mo) := by
  unfold numberStage numberMsg
  by_cases ht : s.type = some "number" ∨ s.type = some "integer"
  · simp only [if_pos ht]
    cases jsToNumber v with
    | none => exact optStore_write he _
    | some q =>
        dsimp only
        cases s.minimum with
        | none =>
            cases s.maximum with
            | none => exact he
            | some m2 => exact optStore_step he _ _
        | some m =>
            have hea := optStore_step he (q < (m : Rat)) ("Must be at least " ++ toString m)
            cases s.maximum with
            | none => exact hea
            | some m2 => exact optStore_step hea _ _
  · simp only [if_neg ht]
    exact he

theorem lengthStage_eq {errs : List (String × String)} {p : String} {mo : Option String}
    {e : List (String × String)} (he : e = optStore errs p mo) (s : SchemaNode) (v : JValue) :
    lengthStage s p v e = optStore errs p (lengthMsg s v mo) := by
  unfold lengthStage lengthMsg
  by_cases ht : s.type = some "string"
  · simp only [if_pos ht]
    cases s.minLength with
    | none =>
        cases s.maxLength with
        | none => exact he
        | some m2 => exact optStore_step he _ _
    | some m =>
        have heb := optStore_step he (m ≠ 0 ∧ lenLt (jsLength v) m = true)
          ("Must be at least " ++ toString m ++ " characters")
        cases s.maxLength with
        | none => exact heb
        | some m2 => exact optStore_step heb _ _
  · simp only [if_neg ht]
    exact he

theorem checkLeaf_eq (s : SchemaNode) (p : String) (v : JValue)
    (errs : List (String × String)) :
    checkLeaf s p v errs = optStore errs p (leafResult s v) := by
  unfold checkLeaf leafResult
  by_cases hp : present v = true
  · simp only [if_pos hp]
    have h1 : emailStage s p v errs = optStore errs p (emailMsg s v none) :=
      @emailStage_eq errs p none errs rfl s v
    have h2 := patternStage_eq h1 s v
    have h3 := numberStage_eq h2 s v
    exact lengthStage_eq h3 s v
  · simp only [if_neg hp]
    rfl

theorem checkLeaf_lookup_ne {s : SchemaNode} {p : String} {v : JValue}
    {errs : List (String × String)} {k : String} (h : p ≠ k) :
    lookupErr (checkLeaf s p v errs) k = lookupErr errs k := by
  rw [checkLeaf_eq]
  cases leafResult s v <;> simp [optStore, lookupErr_storeErr, h]

theorem checkLeaf_lookup_self (s : SchemaNode) (p : String) (v : JValue)
    (errs : List (String × String)) :
    lookupErr (checkLeaf s p v errs) p =
      match leafResult s v with
      | some m => some m
      | none => lookupErr errs p := by
  rw [checkLeaf_eq]
  cases leafResult s v <;> simp [optStore, lookupErr_storeErr]

theorem checkLeaf_missing {s : SchemaNode} {p : String} {v : JValue}
    {errs : List (String × String)} (h : isMissing v = true) :
    checkLeaf s p v errs = errs := by
  unfold checkLeaf
  rw [if_neg]
  simp [present, h]

theorem leafResult_missing {s : SchemaNode} {v : JValue} (h : isMissing v = true) :
    leafResult s v = none := by
  unfold leafResult
  rw [if_neg]
  simp [present, h]

theorem checkLeaf_nodup {s : SchemaNode} {p : String} {v : JValue}
    {errs : List (String × String)} (h : errKeysND errs) :
    errKeysND (checkLeaf s p v errs) := by
  rw [checkLeaf_eq]
  cases leafResult s v with
  | none => exact h
  | some m => exact storeErr_nodup h

theorem checkLeaf_ne_none {s : SchemaNode} {p : String} {v : JValue}
    {errs : List (String × String)} {k : String} (h : lookupErr errs k ≠ none) :
    lookupErr (checkLeaf s p v errs) k ≠ none := by
  rw [checkLeaf_eq]
  cases leafResult s v with
  | none => exact h
  | some m =>
      simp only [optStore, lookupErr_storeErr]
      by_cases hk : p = k <;> simp [hk, h]

/-! ### Facts about the required-name loop -/

theorem rc_lookup_or (fd : JValue) (bp : String) (req : List String) :
    ∀ (errs : List (String × String)) (k : String),
      lookupErr (requiredCheck fd bp errs req) k = lookupErr errs k ∨
      lookupErr (requiredCheck fd bp errs req) k = some "This field is required" := by
  induction req with
  | nil => intro errs k; exact Or.inl rfl
  | cons name rest ih =>
      intro errs k
      simp only [requiredCheck]
      rcases ih (if isMissing (getNestedValue fd (joinPath bp name)) then
          storeErr errs (joinPath bp name) "This field is required" else errs) k with h | h
      · rw [h]
        split
        · rw [lookupErr_storeErr]
          by_cases hk : joinPath bp name = k
          · simp [hk]
          · simp [hk]
        · exact Or.inl rfl
      · exact Or.inr h

theorem rc_preserve_msg (fd : JValue) (bp : String) (req : List String) :
    ∀ (errs : List (String × String)) (k : String),
      lookupErr errs k = some "This field is required" →
      lookupErr (requiredCheck fd bp errs req) k = some "This field is required" := by
  induction req with
  | nil => intro errs k h; exact h
  | cons name rest ih =>
      intro errs k h
      simp only [requiredCheck]
      apply ih
      split
      · rw [lookupErr_storeErr]
        by_cases hk : joinPath bp name = k <;> simp [hk, h]
      · exact h

theorem rc_mem_missing (fd : JValue) (bp : String) {req : List String} {n : String}
    (hn : n ∈ req) (hmiss : isMissing (getNestedValue fd (joinPath bp n)) = true) :
    ∀ (errs : List (String × String)),
      lookupErr (requiredCheck fd bp errs req) (joinPath bp n) =
        some "This field is required" := by
  induction req with
  | nil => exact absurd hn (List.not_mem_nil n)
  | cons name rest ih =>
      intro errs
      simp only [requiredCheck]
      rcases List.mem_cons.mp hn with h | h
      · subst h
        rw [if_pos hmiss]
        apply rc_preserve_msg
        rw [lookupErr_storeErr]
        simp
      · exact ih h _

theorem rc_nodup (fd : JValue) (bp : String) (req : List String) :
    ∀ {errs : List (String × String)}, errKeysND errs →
      errKeysND (requiredCheck fd bp errs req) := by
  induction req with
  | nil => intro errs h; exact h
  | cons name rest ih =>
      intro errs h
      simp only [requiredCheck]
      apply ih
      split
      · exact storeErr_nodup h
      · exact h

theorem rc_ne_none (fd : JValue) (bp : String) (req : List String)
    {errs : List (String × String)} {k : String} (h : lookupErr errs k ≠ none) :
    lookupErr (requiredCheck fd bp errs req) k ≠ none := by
  rcases rc_lookup_or fd bp req errs k with h2 | h2 <;> simp [h2, h]

theorem rc_keys (fd : JValue) (bp : String) (req : List String) :
    ∀ (errs : List (String × String)) (k : String),
      lookupErr (requiredCheck fd bp errs req) k ≠ none →
      lookupErr errs k ≠ none ∨ ∃ n, n ∈ req ∧ joinPath bp n = k := by
  induction req with
  | nil => intro errs k h; exact Or.inl h
  | cons name rest ih =>
      intro errs k h
      simp only [requiredCheck] at h
      rcases ih _ k h with h2 | h2
      · by_cases hk : joinPath bp name = k
        · exact Or.inr ⟨name, List.mem_cons_self name rest, hk⟩
        · left
          revert h2
          split
          · rw [lookupErr_storeErr, if_neg hk]
            exact id
          · exact id
      · obtain ⟨n, hn, hnk⟩ := h2
        exact Or.inr ⟨n, List.mem_cons_of_mem name hn, hnk⟩

/-! ### Structural facts about the recursive validator -/

theorem sizeOf_list_pos (l : List (String × SchemaNode)) : 1 ≤ sizeOf l := by
  cases l <;> simp_arith

theorem sizeOf_rest_lt (name : String) (s : SchemaNode) (rest : List (String × SchemaNode)) :
    sizeOf rest < sizeOf ((name, s) :: rest) := by
  simp only [List.cons.sizeOf_spec, Prod.mk.sizeOf_spec]
  omega

theorem sizeOf_child_lt {s : SchemaNode} {childProps : List (String × SchemaNode)}
    (name : String) (rest : List (String × SchemaNode))
    (h : s.properties = some childProps) :
    sizeOf childProps < sizeOf ((name, s) :: rest) := by
  have h1 := sizeOf_of_properties_eq_some h
  simp only [List.cons.sizeOf_spec, Prod.mk.sizeOf_spec]
  omega

theorem vp_nodup (fd : JValue) : ∀ (props : List (String × SchemaNode)) (bp : String)
    (d : Nat) (errs : List (String × String)),
    errKeysND errs → errKeysND (validateProps fd props bp d errs) := by
  intro props
  induction props with
  | nil =>
      intro bp d errs h
      simpa only [validateProps] using h
  | cons entry rest ih =>
      obtain ⟨name, s⟩ := entry
      intro bp d errs h
      simp only [validateProps]
      apply ih
      split
      · split
        · exact mergeErrs_nodup _ h
        · exact checkLeaf_nodup h
      · exact checkLeaf_nodup h

theorem vff_nodup (fd : JValue) (props : List (String × SchemaNode)) (req : List String)
    (bp : String) (d : Nat) : errKeysND (validateFormFields fd props req bp d) := by
  simp only [validateFormFields]
  split
  · simp [errKeysND]
  · exact vp_nodup fd props bp d _ (rc_nodup fd bp req (by simp [errKeysND]))

theorem vp_ne_none (fd : JValue) : ∀ (props : List (String × SchemaNode)) (bp : String)
    (d : Nat) (errs : List (String × String)) (k : String),
    lookupErr errs k ≠ none → lookupErr (validateProps fd props bp d errs) k ≠ none := by
  intro props
  induction props with
  | nil =>
      intro bp d errs k h
      simpa only [validateProps] using h
  | cons entry rest ih =>
      obtain ⟨name, s⟩ := entry
      intro bp d errs k h
      simp only [validateProps]
      apply ih
      split
      · split
        · exact lookupErr_mergeErrs_ne_none h
        · exact checkLeaf_ne_none h
      · exact checkLeaf_ne_none h

theorem validator_missing (fd : JValue) (k : String)
    (hmiss : isMissing (getNestedValue fd k) = true) :
    ∀ (N : Nat) (props : List (String × SchemaNode)), sizeOf props ≤ N →
      (∀ (req : List String) (bp : String) (d : Nat),
        lookupErr (validateFormFields fd props req bp d) k = none ∨
        lookupErr (validateFormFields fd props req bp d) k = some "This field is required") ∧
      (∀ (bp : String) (d : Nat) (errs : List (String × String)),
        (lookupErr errs k = none ∨ lookupErr errs k = some "This field is required") →
        (lookupErr (validateProps fd props bp d errs) k = none ∨
         lookupErr (validateProps fd props bp d errs) k = some "This field is required")) := by
  intro N
  induction N with
  | zero =>
      intro props h
      exact absurd h (by have := sizeOf_list_pos props; omega)
  | succ N ih =>
      intro props hsz
      have hvp : ∀ (bp : String) (d : Nat) (errs : List (String × String)),
          (lookupErr errs k = none ∨ lookupErr errs k = some "This field is required") →
          (lookupErr (validateProps fd props bp d errs) k = none ∨
           lookupErr (validateProps fd props bp d errs) k = some "This field is required") := by
        intro bp d errs herrs
        match props, hsz with
        | [], _ => simpa only [validateProps] using herrs
        | (name, s) :: rest, hsz =>
            simp only [validateProps]
            have hrest : sizeOf rest ≤ N := by
              have := sizeOf_rest_lt name s rest
              omega
            apply (ih rest hrest).2
            split
            · rename_i childProps heq
              split
              · rw [lookupErr_mergeErrs]
                rw [assocLast_eq_lookupErr (vff_nodup fd childProps s.required
                  (joinPath bp name) (d + 1))]
                have hchild : sizeOf childProps ≤ N := by
                  have := sizeOf_child_lt name rest heq
                  omega
                rcases (ih childProps hchild).1 s.required (joinPath bp name) (d + 1) with
                  h | h
                · rw [h]
                  exact herrs
                · rw [h]
                  exact Or.inr rfl
              · by_cases hk : joinPath bp name = k
                · rw [checkLeaf_missing (by rw [hk]; exact hmiss)]
                  exact herrs
                · rw [checkLeaf_lookup_ne hk]
                  exact herrs
            · by_cases hk : joinPath bp name = k
              · rw [checkLeaf_missing (by rw [hk]; exact hmiss)]
                exact herrs
              · rw [checkLeaf_lookup_ne hk]
                exact herrs
      refine ⟨?_, hvp⟩
      intro req bp d
      simp only [validateFormFields]
      split
      · exact Or.inl rfl
      · apply hvp
        rcases rc_lookup_or fd bp req [] k with h | h
        · rw [h]
          exact Or.inl rfl
        · exact Or.inr h

theorem mw_of_empty_req : ∀ {props : List (String × SchemaNode)} {req : List String}
    {bp k : String}, MayWrite props [] bp k → MayWrite props req bp k := by
  intro props req bp k h
  cases h with
  | ofRequired h1 h2 => exact absurd h1 (List.not_mem_nil _)
  | ofLeaf h1 h2 => exact MayWrite.ofLeaf h1 h2
  | ofChild h1 h2 h3 h4 => exact MayWrite.ofChild h1 h2 h3 h4

theorem mw_cons {entry : String × SchemaNode} {rest : List (String × SchemaNode)}
    {req : List String} {bp k : String} (h : MayWrite rest req bp k) :
    MayWrite (entry :: rest) req bp k := by
  cases h with
  | ofRequired h1 h2 => exact MayWrite.ofRequired h1 h2
  | ofLeaf h1 h2 => exact MayWrite.ofLeaf (List.mem_cons_of_mem _ h1) h2
  | ofChild h1 h2 h3 h4 => exact MayWrite.ofChild (List.mem_cons_of_mem _ h1) h2 h3 h4

theorem validator_sound (fd : JValue) (k : String) :
    ∀ (N : Nat) (props : List (String × SchemaNode)), sizeOf props ≤ N →
      (∀ (req : List String) (bp : String) (d : Nat),
        lookupErr (validateFormFields fd props req bp d) k ≠ none →
        MayWrite props req bp k) ∧
      (∀ (bp : String) (d : Nat) (errs : List (String × String)),
        lookupErr (validateProps fd props bp d errs) k ≠ none →
        lookupErr errs k ≠ none ∨ MayWrite props [] bp k) := by
  intro N
  induction N with
  | zero =>
      intro props h
      exact absurd h (by have := sizeOf_list_pos props; omega)
  | succ N ih =>
      intro props hsz
      have hvp : ∀ (bp : String) (d : Nat) (errs : List (String × String)),
          lookupErr (validateProps fd props bp d errs) k ≠ none →
          lookupErr errs k ≠ none ∨ MayWrite props [] bp k := by
        intro bp d errs h
        match props, hsz with
        | [], _ =>
            simp only [validateProps] at h
            exact Or.inl h
        | (name, s) :: rest, hsz =>
            simp only [validateProps] at h
            have hrest : sizeOf rest ≤ N := by
              have := sizeOf_rest_lt name s rest
              omega
            rcases (ih rest hrest).2 bp d _ h with h2 | h2
            · -- the head entry changed the map at k, or errs already had k
              revert h2
              split
              · rename_i childProps heq
                split
                · rename_i hobj
                  intro h2
                  rw [lookupErr_mergeErrs] at h2
                  cases hal : assocLast (validateFormFields fd childProps s.required
                      (joinPath bp name) (d + 1)) k with
                  | none =>
                      rw [hal] at h2
                      exact Or.inl h2
                  | some m =>
                      have hlk : lookupErr (validateFormFields fd childProps s.required
                          (joinPath bp name) (d + 1)) k ≠ none := by
                        intro hf
                        rw [assocLast_none_iff.mpr hf] at hal
                        exact Option.noConfusion hal
                      have hchild : sizeOf childProps ≤ N := by
                        have := sizeOf_child_lt name rest heq
                        omega
                      have hmw := (ih childProps hchild).1 s.required (joinPath bp name)
                        (d + 1) hlk
                      exact Or.inr (MayWrite.ofChild (List.mem_cons_self _ _) hobj heq hmw)
                · intro h2
                  by_cases hk : joinPath bp name = k
                  · exact Or.inr (MayWrite.ofLeaf (List.mem_cons_self _ _) hk.symm)
                  · rw [checkLeaf_lookup_ne hk] at h2
                    exact Or.inl h2
              · intro h2
                by_cases hk : joinPath bp name = k
                · exact Or.inr (MayWrite.ofLeaf (List.mem_cons_self _ _) hk.symm)
                · rw [checkLeaf_lookup_ne hk] at h2
                  exact Or.inl h2
            · exact Or.inr (mw_cons h2)
      refine ⟨?_, hvp⟩
      intro req bp d h
      rw [validateFormFields] at h
      revert h
      split
      · intro h
        exact absurd rfl h
      · intro h
        rcases hvp bp d _ h with h2 | h2
        · rcases rc_keys fd bp req [] k h2 with h3 | h3
          · simp [lookupErr] at h3
          · obtain ⟨n, hn, hnk⟩ := h3
            exact MayWrite.ofRequired hn hnk.symm
        · exact mw_of_empty_req h2

theorem mw_ext : ∀ {props : List (String × SchemaNode)} {req : List String} {bp k : String},
    bp ≠ "" → MayWrite props req bp k → ∃ w, k = bp ++ "." ++ w := by
  intro props req bp k hbp h
  induction h with
  | ofRequired h1 h2 => exact ⟨_, by rw [h2, joinPath_eq hbp]⟩
  | ofLeaf h1 h2 => exact ⟨_, by rw [h2, joinPath_eq hbp]⟩
  | ofChild h1 h2 h3 h4 ih =>
      rename_i props' req' bp' k' name s childProps
      have hbp2 : joinPath bp' name ≠ "" := joinPath_ne_empty (Or.inl hbp)
      obtain ⟨w, hw⟩ := ih hbp2
      rw [joinPath_eq hbp] at hw
      refine ⟨name ++ "." ++ w, ?_⟩
      rw [hw]
      simp [String.append_assoc]

theorem vff_required_found (fd : JValue) {props : List (String × SchemaNode)}
    {req : List String} {bp : String} {d : Nat} {n : String}
    (hd : d ≤ MAX_DEPTH) (hn : n ∈ req)
    (hmiss : isMissing (getNestedValue fd (joinPath bp n)) = true) :
    lookupErr (validateFormFields fd props req bp d) (joinPath bp n) =
      some "This field is required" := by
  have hnot : ¬ d > MAX_DEPTH := by omega
  rw [validateFormFields, if_neg hnot]
  have h0 : lookupErr (requiredCheck fd bp [] req) (joinPath bp n) =
      some "This field is required" := rc_mem_missing fd bp hn hmiss []
  have h1 : lookupErr (validateProps fd props bp d (requiredCheck fd bp [] req))
      (joinPath bp n) ≠ none :=
    vp_ne_none fd props bp d _ _ (by rw [h0]; exact Option.noConfusion)
  have h2 := (validator_missing fd (joinPath bp n) hmiss (sizeOf props) props le_rfl).2
    bp d (requiredCheck fd bp [] req) (Or.inr h0)
  rcases h2 with h2 | h2
  · exact absurd h2 h1
  · exact h2

/-! ### The rule chain in first-match normal form -/

theorem emailMsg_eq (s : SchemaNode) (v : JValue) (mo : Option String) :
    emailMsg s v mo = if emailFail s v = true then some "Invalid email address" else mo := by
  unfold emailMsg emailFail
  by_cases h1 : s.format = some "email" <;> by_cases h2 : emailTest (jsToString v) = false <;>
    simp [h1, h2]

theorem patternMsg_eq (s : SchemaNode) (v : JValue) (mo : Option String) :
    patternMsg s v mo =
      if patternFail s v = true then some (jsOr s.patternErrorMessage "Invalid format")
      else mo := by
  unfold patternMsg patternFail
  cases hp : s.pattern with
  | none => simp
  | some test => by_cases ht : test (jsToString v) = false <;> simp [ht]

theorem numberMsg_eq (s : SchemaNode) (v : JValue) (mo : Option String) :
    numberMsg s v mo =
      if s.type = some "number" ∨ s.type = some "integer" then
        match jsToNumber v with
        | none => some "Must be a number"
        | some q =>
            if numMaxFail s q = true then
              some ("Must be at most " ++ toString (s.maximum.getD 0))
            else if numMinFail s q = true then
              some ("Must be at least " ++ toString (s.minimum.getD 0))
            else mo
      else mo := by
  unfold numberMsg numMaxFail numMinFail
  by_cases ht : s.type = some "number" ∨ s.type = some "integer"
  · simp only [if_pos ht]
    cases jsToNumber v with
    | none => rfl
    | some q =>
        dsimp only
        cases hmin : s.minimum with
        | none =>
            cases hmax : s.maximum with
            | none => simp
            | some m2 => by_cases h2 : q > (m2 : Rat) <;> simp [h2]
        | some m =>
            cases hmax : s.maximum with
            | none => by_cases h1 : q < (m : Rat) <;> simp [h1]
            | some m2 =>
                by_cases h2 : q > (m2 : Rat) <;> by_cases h1 : q < (m : Rat) <;>
                  simp [h1, h2]
  · simp only [if_neg ht]

theorem lengthMsg_eq (s : SchemaNode) (v : JValue) (mo : Option String) :
    lengthMsg s v mo =
      if s.type = some "string" ∧ maxLenFail s v = true then
        some ("Must be at most " ++ toString (s.maxLength.getD 0) ++ " characters")
      else if s.type = some "string" ∧ minLenFail s v = true then
        some ("Must be at least " ++ toString (s.minLength.getD 0) ++ " characters")
      else mo := by
  unfold lengthMsg maxLenFail minLenFail
  by_cases ht : s.type = some "string"
  · simp only [if_pos ht, ht, true_and]
    cases hminl : s.minLength with
    | none =>
        cases hmaxl : s.maxLength with
        | none => simp
        | some m2 =>
            by_cases h2 : m2 ≠ 0 ∧ lenGt (jsLength v) m2 = true <;> simp [h2]
    | some m =>
        cases hmaxl : s.maxLength with
        | none =>
            by_cases h1 : m ≠ 0 ∧ lenLt (jsLength v) m = true <;> simp [h1]
        | some m2 =>
            by_cases h2 : m2 ≠ 0 ∧ lenGt (jsLength v) m2 = true <;>
              by_cases h1 : m ≠ 0 ∧ lenLt (jsLength v) m = true <;> simp [h1, h2]
  · simp [ht]

theorem leafResult_eq_lastFailingMsg (s : SchemaNode) (v : JValue) :
    leafResult s v = lastFailingMsg s v := by
  unfold leafResult lastFailingMsg
  by_cases hp : present v = true
  · simp only [if_pos hp]
    rw [lengthMsg_eq, numberMsg_eq, patternMsg_eq, emailMsg_eq]
  · simp [hp]

/-! ### Appending property lists and duplicate-free keys -/

theorem vp_nil (fd : JValue) (bp : String) (d : Nat) (errs : List (String × String)) :
    validateProps fd [] bp d errs = errs := by
  simp only [validateProps]

theorem vp_append (fd : JValue) : ∀ (l1 l2 : List (String × SchemaNode)) (bp : String)
    (d : Nat) (errs : List (String × String)),
    validateProps fd (l1 ++ l2) bp d errs =
      validateProps fd l2 bp d (validateProps fd l1 bp d errs) := by
  intro l1
  induction l1 with
  | nil =>
      intro l2 bp d errs
      rw [List.nil_append, vp_nil]
  | cons entry rest ih =>
      obtain ⟨name, s⟩ := entry
      intro l2 bp d errs
      rw [List.cons_append]
      show validateProps fd ((name, s) :: (rest ++ l2)) bp d errs = _
      simp only [validateProps]
      exact ih l2 bp d _

theorem nodup_keys_entry_eq : ∀ {props : List (String × SchemaNode)},
    (props.map Prod.fst).Nodup → ∀ {g : String} {s s' : SchemaNode},
    (g, s) ∈ props → (g, s') ∈ props → s = s' := by
  intro props
  induction props with
  | nil => intro _ g s s' h1; exact absurd h1 (List.not_mem_nil _)
  | cons e rest ih =>
      obtain ⟨g0, s0⟩ := e
      intro hnd g s s' h1 h2
      simp only [List.map_cons, List.nodup_cons] at hnd
      rcases List.mem_cons.mp h1 with h1 | h1 <;> rcases List.mem_cons.mp h2 with h2 | h2
      · rw [Prod.mk.injEq] at h1 h2
        rw [h1.2, h2.2]
      · rw [Prod.mk.injEq] at h1
        exact absurd (h1.1 ▸ List.mem_map_of_mem Prod.fst h2) hnd.1
      · rw [Prod.mk.injEq] at h2
        exact absurd (h2.1 ▸ List.mem_map_of_mem Prod.fst h1) hnd.1
      · exact ih hnd.2 h1 h2

/-- Under well-formed names, no derivation can write a key of the form
`g2.n` when the object child named `g2` neither requires `n` nor declares a
property named `n`: required lists do not contaminate sibling groups. -/
theorem mw_no_cross {props : List (String × SchemaNode)} {req : List String}
    {g2 n : String} {s2 : SchemaNode} {P2 : List (String × SchemaNode)}
    (hg2 : (g2, s2) ∈ props) (hp2 : s2.properties = some P2)
    (hnr : n ∉ s2.required) (hnp : n ∉ P2.map Prod.fst)
    (htop : ∀ x ∈ props.map Prod.fst, x ≠ "" ∧ dotFree x = true)
    (hreqdf : ∀ x ∈ req, dotFree x = true)
    (hnodup : (props.map Prod.fst).Nodup)
    (hdn : dotFree n = true) :
    ¬ MayWrite props req "" (g2 ++ "." ++ n) := by
  intro h
  have hg2k := htop g2 (List.mem_map_of_mem Prod.fst hg2)
  cases h with
  | ofRequired h1 h2 =>
      rw [joinPath_nilbp] at h2
      exact dotFree_ne_join (hreqdf _ h1) g2 n h2.symm
  | ofLeaf h1 h2 =>
      rw [joinPath_nilbp] at h2
      exact dotFree_ne_join (htop _ (List.mem_map_of_mem Prod.fst h1)).2 g2 n h2.symm
  | ofChild h1 hobj h3 h4 =>
      rename_i name s childProps
      have hname := htop name (List.mem_map_of_mem Prod.fst h1)
      rw [joinPath_nilbp] at h4
      obtain ⟨w, hw⟩ := mw_ext hname.1 h4
      obtain ⟨hge, hne⟩ := first_seg hg2k.2 hname.2 hw
      subst hge
      have hs : s = s2 := nodup_keys_entry_eq hnodup h1 hg2
      subst hs
      rw [hp2] at h3
      have hcp : childProps = P2 := (Option.some.inj h3).symm
      subst hcp
      subst hne
      cases h4 with
      | ofRequired hh1 hh2 =>
          rw [joinPath_eq hg2k.1] at hh2
          have := str_append_left_cancel hh2
          exact hnr (this ▸ hh1)
      | ofLeaf hh1 hh2 =>
          rw [joinPath_eq hg2k.1] at hh2
          have := str_append_left_cancel hh2
          exact hnp (this ▸ List.mem_map_of_mem Prod.fst hh1)
      | ofChild hh1 hhobj hh3 hh4 =>
          rename_i name2 ss2 cp2
          have hbp2 : joinPath g2 name2 ≠ "" := joinPath_ne_empty (Or.inl hg2k.1)
          obtain ⟨w2, hw2⟩ := mw_ext hbp2 hh4
          rw [joinPath_eq hg2k.1] at hw2
          rw [String.append_assoc (g2 ++ ".") name2, String.append_assoc (g2 ++ ".")] at hw2
          have := str_append_left_cancel hw2
          exact dotFree_ne_join hdn name2 w2 (by rw [this, String.append_assoc])

/-! ## Claims -/

/-- C1: for every non-empty dotted path whose filtered segments are all
non-empty, and every value, `getNestedValue(p)` immediately after
`setNestedValue(p, v)` returns exactly `v`, regardless of the prior contents
of `formData` (missing intermediates are created as fresh mappings, existing
non-mapping intermediates are replaced, and arrays on the path are written
through as JavaScript does). -/
theorem c1_set_get_roundtrip (fd : JValue) (path : String) (v : JValue)
    (h : splitPath path ≠ []) :
    getNestedValue (setNestedValue fd path v) path = v := by
  have hp : path ≠ "" := by
    intro he
    rw [he, splitPath_empty] at h
    exact h rfl
  cases hsp : splitPath path with
  | nil => exact absurd hsp h
  | cons a as =>
      unfold setNestedValue getNestedValue
      rw [if_neg hp, if_neg hp, hsp]
      exact setIn_roundtrip (a :: as) _ v (by simp) rfl

/-- C1 witness: a concrete round trip through a replaced non-mapping
intermediate. -/
theorem c1_set_get_roundtrip_witness :
    getNestedValue (setNestedValue (JValue.vObj [("a", JValue.vStr "old")]) "a.b"
      (JValue.vNum 42)) "a.b" = JValue.vNum 42 :=
  c1_set_get_roundtrip (JValue.vObj [("a", JValue.vStr "old")]) "a.b" (JValue.vNum 42)
    (by decide)

/-- C2: with well-formed names (non-empty, dot-free, pairwise distinct), a
nested object child `g1` whose node-local `required` list contains `n`, with
the answer at `g1.n` missing, makes validation record exactly the key
`g1.n` (the base path joined with the child name) with the required
message; and the same `n` generates no error under a sibling object child
`g2` whose own `required` list and properties do not contain `n` —
required-ness is decided only by the immediate parent node. -/
theorem c2_required_scoping (fd : JValue) (pre post : List (String × SchemaNode))
    (req : List String) (g1 g2 n : String) (s1 s2 : SchemaNode)
    (P1 P2 : List (String × SchemaNode))
    (hobj1 : s1.type = some "object") (hp1 : s1.properties = some P1)
    (hreq1 : n ∈ s1.required)
    (hmiss : isMissing (getNestedValue fd (g1 ++ "." ++ n)) = true)
    (hg2 : (g2, s2) ∈ pre ++ (g1, s1) :: post) (hp2 : s2.properties = some P2)
    (hnr : n ∉ s2.required) (hnp : n ∉ P2.map Prod.fst)
    (htop : ∀ x ∈ (pre ++ (g1, s1) :: post).map Prod.fst, x ≠ "" ∧ dotFree x = true)
    (hreqdf : ∀ x ∈ req, dotFree x = true)
    (hnodup : ((pre ++ (g1, s1) :: post).map Prod.fst).Nodup)
    (hdn : dotFree n = true) :
    lookupErr (validateFormFields fd (pre ++ (g1, s1) :: post) req "" 0) (g1 ++ "." ++ n) =
      some "This field is required" ∧
    lookupErr (validateFormFields fd (pre ++ (g1, s1) :: post) req "" 0) (g2 ++ "." ++ n) =
      none := by
  have hg1 : g1 ≠ "" :=
    (htop g1 (List.mem_map_of_mem Prod.fst
      (List.mem_append_right pre (List.mem_cons_self _ _)))).1
  constructor
  · rw [validateFormFields, if_neg (by decide)]
    rw [vp_append]
    show lookupErr (validateProps fd ((g1, s1) :: post) "" 0 _) _ = _
    simp only [validateProps]
    split
    · rename_i childProps heq
      rw [hp1] at heq
      have hcp : P1 = childProps := Option.some.inj heq
      subst hcp
      rw [if_pos hobj1]
      have hinner : lookupErr (validateFormFields fd P1 s1.required (joinPath "" g1) 1)
          (g1 ++ "." ++ n) = some "This field is required" := by
        have hk : joinPath (joinPath "" g1) n = g1 ++ "." ++ n := by
          rw [joinPath_nilbp, joinPath_eq hg1]
        have := @vff_required_found fd P1 s1.required (joinPath "" g1) 1 n (by decide)
          hreq1 (by rw [hk]; exact hmiss)
        rwa [hk] at this
      have hmrg : lookupErr (mergeErrs (validateProps fd pre "" 0
          (requiredCheck fd "" [] req)) (validateFormFields fd P1 s1.required
          (joinPath "" g1) 1)) (g1 ++ "." ++ n) = some "This field is required" := by
        rw [lookupErr_mergeErrs, assocLast_eq_lookupErr (vff_nodup fd P1 s1.required
          (joinPath "" g1) 1), hinner]
      have hne := vp_ne_none fd post "" 0 _ (g1 ++ "." ++ n)
        (by rw [hmrg]; exact Option.noConfusion)
      have hv := (validator_missing fd (g1 ++ "." ++ n) hmiss (sizeOf post) post
        le_rfl).2 "" 0 _ (Or.inr hmrg)
      rcases hv with hv | hv
      · exact absurd hv hne
      · exact hv
    · rename_i heq
      rw [hp1] at heq
      exact Option.noConfusion heq
  · by_cases hres : lookupErr (validateFormFields fd (pre ++ (g1, s1) :: post) req "" 0)
      (g2 ++ "." ++ n) = none
    · exact hres
    · have hmw := (validator_sound fd (g2 ++ "." ++ n)
        (sizeOf (pre ++ (g1, s1) :: post)) (pre ++ (g1, s1) :: post) le_rfl).1
        req "" 0 hres
      exact absurd hmw (mw_no_cross hg2 hp2 hnr hnp htop hreqdf hnodup hdn)

/-- C2 witness: two sibling groups, `g1` requiring `child`, `g2` not; the
error appears exactly under `g1.child`. -/
theorem c2_required_scoping_witness :
    lookupErr (validateFormFields (JValue.vObj [])
      [("g1", objNode [("child", SchemaNode.blank)] ["child"]),
       ("g2", objNode [("other", SchemaNode.blank)] [])] [] "" 0) "g1.child" =
      some "This field is required" ∧
    lookupErr (validateFormFields (JValue.vObj [])
      [("g1", objNode [("child", SchemaNode.blank)] ["child"]),
       ("g2", objNode [("other", SchemaNode.blank)] [])] [] "" 0) "g2.child" =
      none := by
  have h := c2_required_scoping (JValue.vObj []) [] [("g2", objNode [("other",
      SchemaNode.blank)] [])] [] "g1" "g2" "child"
    (objNode [("child", SchemaNode.blank)] ["child"])
    (objNode [("other", SchemaNode.blank)] [])
    [("child", SchemaNode.blank)] [("other", SchemaNode.blank)]
    rfl rfl (by decide) (by decide)
    (List.mem_cons_of_mem _ (List.mem_cons_self _ _)) rfl
    (by decide) (by decide) (by decide) (by decide) (by decide) (by decide)
  exact h

/-- C3: the `submitting` flag makes submission single-flight — a second
submit event arriving before the first resolves issues no further POST
(exactly one POST for the pair), and resolution always clears the flag. -/
theorem c3_single_flight (m : SubmitMachine) (h : m.submitting = false) :
    (submitEvent true (submitEvent true m)).postCount = m.postCount + 1 ∧
    (submitEvent true (submitEvent true m)).submitting = true ∧
    (submitResolve (submitEvent true (submitEvent true m))).submitting = false := by
  simp [submitEvent, submitResolve, h]

/-- C3 witness at the idle initial state. -/
theorem c3_single_flight_witness :
    (submitEvent true (submitEvent true ⟨false, 0⟩)).postCount = 1 ∧
    (submitEvent true (submitEvent true ⟨false, 0⟩)).submitting = true ∧
    (submitResolve (submitEvent true (submitEvent true ⟨false, 0⟩))).submitting = false :=
  c3_single_flight ⟨false, 0⟩ rfl

/-- C4 counterexample: on a node declaring both `format:"email"` and a
digits-only `pattern`, the value `"abc"` fails both rules, and the recorded
message is `"Invalid format"` — the *pattern* (later) rule's message, not
`"Invalid email address"` as the claim's first-rule-wins order demands. -/
theorem c4_counterexample :
    lookupErr (validateFormFields (JValue.vObj [("f", JValue.vStr "abc")])
      [("f", emailPatternNode)] [] "" 0) "f" = some "Invalid format" ∧
    some "Invalid format" ≠ some "Invalid email address" := by
  constructor
  · simp [validateFormFields, validateProps, requiredCheck, checkLeaf, emailStage,
      patternStage, numberStage, lengthStage, present, isMissing, jsOr, emailTest,
      isJsSpace, jsToString, getNestedValue, splitPath, splitDots, joinPath,
      JValue.getProp, JValue.lookupField, storeErr, lookupErr, MAX_DEPTH,
      emailPatternNode, SchemaNode.type, SchemaNode.format, SchemaNode.pattern,
      SchemaNode.patternErrorMessage, SchemaNode.minimum, SchemaNode.maximum,
      SchemaNode.minLength, SchemaNode.maxLength, SchemaNode.properties,
      SchemaNode.required, mergeErrs]
  · decide

/-- C4 (amended): for a leaf field, the message recorded is that of the
*last* failing rule in the order email, pattern, number, string length —
each later failing rule's assignment overwrites the earlier message
(with `maximum` overwriting `minimum` and `maxLength` overwriting
`minLength` inside their blocks). -/
theorem c4_last_rule_message (fd : JValue) (name : String) (s : SchemaNode)
    (hleaf : s.type = some "object" → s.properties = none) :
    lookupErr (validateFormFields fd [(name, s)] [] "" 0) name =
      lastFailingMsg s (getNestedValue fd name) := by
  rw [validateFormFields, if_neg (by decide)]
  show lookupErr (validateProps fd [(name, s)] "" 0 (requiredCheck (fd) "" [] [])) name = _
  simp only [validateProps, requiredCheck]
  split
  · rename_i childProps heq
    split
    · rename_i hobj
      rw [hleaf hobj] at heq
      exact Option.noConfusion heq
    · rw [joinPath_nilbp, checkLeaf_lookup_self, leafResult_eq_lastFailingMsg]
      cases lastFailingMsg s (getNestedValue fd name) <;> simp [lookupErr]
  · rw [joinPath_nilbp, checkLeaf_lookup_self, leafResult_eq_lastFailingMsg]
    cases lastFailingMsg s (getNestedValue fd name) <;> simp [lookupErr]

/-- C4 witness: the amended last-rule-wins reading at the counterexample
input, via the general theorem. -/
theorem c4_last_rule_message_witness :
    lookupErr (validateFormFields (JValue.vObj [("f", JValue.vStr "abc")])
      [("f", emailPatternNode)] [] "" 0) "f" =
      lastFailingMsg emailPatternNode
        (getNestedValue (JValue.vObj [("f", JValue.vStr "abc")]) "f") :=
  c4_last_rule_message (JValue.vObj [("f", JValue.vStr "abc")]) "f" emailPatternNode
    (fun hobj => absurd hobj (by decide))

/-- C5: the validator of `src/form-builder.js` never consults the schema's
`messages` map — a missing required `x` whose node carries any custom
`messages.required` string still yields the built-in
"This field is required", contradicting the claim (which the repository's
own test suite asserts). -/
theorem c5_custom_message_ignored (custom : String) :
    lookupErr (validateFormFields (JValue.vObj []) [("x", msgNode custom)] ["x"] "" 0)
      "x" = some "This field is required" := by
  have h := @vff_required_found (JValue.vObj []) [("x", msgNode custom)] ["x"] "" 0 "x"
    (by decide) (by decide) (by decide)
  rwa [joinPath_nilbp] at h

/-- C6: the submission path of `src/form-builder.js` contradicts the claim
(and the repository's own 403 tests): on a 403 response it performs no token
refresh and no retry — exactly one submission call, zero refresh calls, and
the generic `Failed to submit form: Forbidden` message, with or without an
`oidc-url` configured. -/
theorem c6_no_refresh_on_403 :
    handleSubmitTransport ⟨false, 403, "Forbidden"⟩ =
      { submissionCalls := 1, refreshCalls := 0,
        errorMessage := some "Failed to submit form: Forbidden" } := rfl

/-- C7: `renderInput` of `src/form-builder.js` contradicts the claim (and
the repository's single-value-enum tests): an enum of exactly one member
with the `radio` hint still renders a radio group with one named input
element, not an informational label without inputs; multi-value enums do
render one radio input per value. -/
theorem c7_single_enum_renders_radio (t t2 : String) :
    renderInput (enumNode ["Default"] t) (some "radio") = RenderKind.radioGroup ["Default"] ∧
    inputElementCount (renderInput (enumNode ["Default"] t) (some "radio")) = 1 ∧
    renderInput (enumNode ["Yes", "No"] t2) (some "radio") =
      RenderKind.radioGroup ["Yes", "No"] ∧
    inputElementCount (renderInput (enumNode ["Yes", "No"] t2) (some "radio")) = 2 := by
  refine ⟨?_, ?_, ?_, ?_⟩ <;> rfl

/-- C8 counterexample: when the value at `a` is an array carrying the
sibling `c` as a non-index own property, the spine's shallow array clone
`[...existing]` keeps only indexed elements, so setting `a.b` silently drops
`a.c` — the claim's unrestricted frame property fails. -/
theorem c8_counterexample :
    getNestedValue (JValue.vObj [("a", JValue.vArr [JValue.vNum 1] [("c", JValue.vNum 9)]),
      ("d", JValue.vNum 7)]) "a.c" = JValue.vNum 9 ∧
    getNestedValue (setNestedValue (JValue.vObj [("a", JValue.vArr [JValue.vNum 1]
      [("c", JValue.vNum 9)]), ("d", JValue.vNum 7)]) "a.b" (JValue.vNum 5)) "a.c" =
      JValue.vUndefined := by
  exact ⟨rfl, rfl⟩

/-- C8 (amended): setting `a.b` leaves the sibling `a.c` and the unrelated
top-level `d` with exactly their previous values, for every object root and
well-formed segment names, *provided* the value at `a` is not an array
holding `c` as a non-index own property (such properties are dropped by the
shallow array clone on the spine, see the counterexample). -/
theorem c8_sibling_frame (fd : List (String × JValue)) (a b c d : String) (v : JValue)
    (ha : dotFree a = true) (hb : dotFree b = true) (hc : dotFree c = true)
    (hd : dotFree d = true) (ha' : a ≠ "") (hb' : b ≠ "") (hc' : c ≠ "") (hd' : d ≠ "")
    (hbc : b ≠ c) (had : a ≠ d)
    (hsafe : arrPropFree ((JValue.lookupField fd a).getD JValue.vUndefined) c = true) :
    getNestedValue (setNestedValue (JValue.vObj fd) (a ++ "." ++ b) v) (a ++ "." ++ c) =
      getNestedValue (JValue.vObj fd) (a ++ "." ++ c) ∧
    getNestedValue (setNestedValue (JValue.vObj fd) (a ++ "." ++ b) v) d =
      getNestedValue (JValue.vObj fd) d := by
  have hAB : (a ++ "." ++ b) ≠ "" := join_ne_empty a b
  have hAC : (a ++ "." ++ c) ≠ "" := join_ne_empty a c
  unfold setNestedValue
  rw [if_neg hAB, splitPath_two ha hb ha' hb']
  unfold getNestedValue
  rw [if_neg hAC, if_neg hAC, if_neg hd', if_neg hd', splitPath_two ha hc ha' hc',
    splitPath_single hd hd']
  simp only [setIn, List.foldl, JValue.spreadToObj, JValue.assignProp]
  constructor
  · rw [JValue.getProp_storeField_self]
    have hEa : JValue.getProp (JValue.vObj fd) a =
        (JValue.lookupField fd a).getD JValue.vUndefined := rfl
    rw [hEa]
    cases hE : JValue.lookupField fd a with
    | none =>
        simp only [Option.getD_none]
        simp [JValue.assignProp, JValue.storeField, JValue.getProp, JValue.lookupField, hbc]
    | some w =>
        rw [hE] at hsafe
        simp only [Option.getD_some] at hsafe ⊢
        cases w with
        | vObj f =>
            simp only [JValue.assignProp, JValue.getProp]
            rw [JValue.lookupField_storeField_ne f hbc v]
        | vArr el pr =>
            simp only [arrPropFree] at hsafe
            cases hpi : JValue.parseIndex b with
            | some i =>
                simp only [JValue.assignProp, hpi, JValue.getProp]
                cases hpc : JValue.parseIndex c with
                | some j =>
                    have hij : i ≠ j := fun hf => hbc (by
                      rw [JValue.parseIndex_eq_toString hpi,
                        JValue.parseIndex_eq_toString hpc, hf])
                    dsimp only
                    rw [JValue.updatePad_getD_ne el hij v]
                | none =>
                    rw [Option.isNone_iff_eq_none] at hsafe
                    simp [JValue.lookupField, hsafe]
            | none =>
                simp only [JValue.assignProp, hpi, JValue.getProp]
                cases hpc : JValue.parseIndex c with
                | some j => rfl
                | none =>
                    rw [Option.isNone_iff_eq_none] at hsafe
                    simp [JValue.storeField, JValue.lookupField, hbc, hsafe]
        | vUndefined =>
            simp [JValue.assignProp, JValue.storeField, JValue.getProp,
              JValue.lookupField, hbc]
        | vNull =>
            simp [JValue.assignProp, JValue.storeField, JValue.getProp,
              JValue.lookupField, hbc]
        | vBool bb =>
            simp [JValue.assignProp, JValue.storeField, JValue.getProp,
              JValue.lookupField, hbc]
        | vNum q =>
            simp [JValue.assignProp, JValue.storeField, JValue.getProp,
              JValue.lookupField, hbc]
        | vStr st =>
            simp [JValue.assignProp, JValue.storeField, JValue.getProp,
              JValue.lookupField, hbc]
  · simp only [JValue.getProp]
    rw [JValue.lookupField_storeField_ne fd had]

/-- C8 witness: a concrete frame instance with an object at `a`. -/
theorem c8_sibling_frame_witness :
    getNestedValue (setNestedValue (JValue.vObj [("a", JValue.vObj [("c", JValue.vStr "keep"),
      ("b", JValue.vNum 1)]), ("d", JValue.vStr "top")]) ("a" ++ "." ++ "b")
      (JValue.vNum 5)) ("a" ++ "." ++ "c") =
      getNestedValue (JValue.vObj [("a", JValue.vObj [("c", JValue.vStr "keep"),
        ("b", JValue.vNum 1)]), ("d", JValue.vStr "top")]) ("a" ++ "." ++ "c") ∧
    getNestedValue (setNestedValue (JValue.vObj [("a", JValue.vObj [("c", JValue.vStr "keep"),
      ("b", JValue.vNum 1)]), ("d", JValue.vStr "top")]) ("a" ++ "." ++ "b")
      (JValue.vNum 5)) "d" =
      getNestedValue (JValue.vObj [("a", JValue.vObj [("c", JValue.vStr "keep"),
        ("b", JValue.vNum 1)]), ("d", JValue.vStr "top")]) "d" :=
  c8_sibling_frame [("a", JValue.vObj [("c", JValue.vStr "keep"), ("b", JValue.vNum 1)]),
      ("d", JValue.vStr "top")] "a" "b" "c" "d" (JValue.vNum 5)
    (by decide) (by decide) (by decide) (by decide) (by decide) (by decide) (by decide)
    (by decide) (by decide) (by decide) (by decide)

/-- C9: validation recursion is depth-capped at `MAX_DEPTH = 10`: any call
past the cap aborts descent at that branch with an empty error map (after a
console warning) instead of recursing; the validator is a total function by
construction. -/
theorem c9_depth_cap (fd : JValue) (props : List (String × SchemaNode)) (req : List String)
    (bp : String) (d : Nat) (h : d > MAX_DEPTH) :
    validateFormFields fd props req bp d = [] := by
  rw [validateFormFields, if_pos h]

/-- C9 witness just past the cap. -/
theorem c9_depth_cap_witness :
    validateFormFields (JValue.vObj []) [("x", SchemaNode.blank)] ["x"] "deep.path" 11 = [] :=
  c9_depth_cap (JValue.vObj []) [("x", SchemaNode.blank)] ["x"] "deep.path" 11 (by decide)

/-- C10: `getNestedValue` is total at the public surface — it always returns
a value (`undefined` included) for every `formData` and every path argument
of any type, and every non-string, empty, or all-empty-segments path yields
`undefined`.  (Traversal over `null`, primitive or array intermediates is
total by construction of `getProp`.) -/
theorem c10_get_total (fd : JValue) :
    (∀ p : JValue, isStringJ p = false → getNestedValueAny fd p = JValue.vUndefined) ∧
    (∀ s : String, splitPath s = [] → getNestedValueAny fd (JValue.vStr s) =
      JValue.vUndefined) := by
  constructor
  · intro p h
    cases p with
    | vStr s => simp [isStringJ] at h
    | vUndefined => rfl
    | vNull => rfl
    | vBool b => rfl
    | vNum q => rfl
    | vArr el pr => rfl
    | vObj f => rfl
  · intro s h
    by_cases hs : s = ""
    · subst hs
      rfl
    · simp only [getNestedValueAny, if_neg hs]
      unfold getNestedValue
      rw [if_neg hs, h]

/-- C10 witness: a numeric path and an all-dots path both yield
`undefined`. -/
theorem c10_get_total_witness :
    getNestedValueAny (JValue.vObj [("a", JValue.vNum 1)]) (JValue.vNum 3) =
      JValue.vUndefined ∧
    getNestedValueAny (JValue.vObj [("a", JValue.vNum 1)]) (JValue.vStr "...") =
      JValue.vUndefined :=
  ⟨(c10_get_total (JValue.vObj [("a", JValue.vNum 1)])).1 (JValue.vNum 3) rfl,
   (c10_get_total (JValue.vObj [("a", JValue.vNum 1)])).2 "..." (by decide)⟩
